import Mathlib

/-!
Verification development for the GarbageCollector repository.

The repository implements two memory-management subsystems:
1. a tracing mark-and-sweep collector (src/collections/cpp/gc.h, gc.cpp), and
2. an atomic reference-counted shared pointer with weak references
   (src/collections/cpp/VSharedPtr.hpp).

This file gives a shallow embedding of both subsystems and proves, or refutes,
the frozen claims about them.  Counters that are size_t in the source are
modelled as Nat with explicit wrap-around modulo 2^64 where the source can
underflow; the int root_ref_cnt of the tracing collector is modelled as Int.
Pointers are modelled as Option-of-address; a null pointer is none.
-/

namespace GarbageCollector

namespace RC

/-- Word size of size_t on the target platform: counters wrap modulo this. -/
def W : Nat := 2 ^ 64

/-- Embedding of ptr::detail::ControlBlock (VSharedPtr.hpp lines 164-359).
The strong and weak fields are the two size_t reference counters, ptr is the
atomic managed pointer (none = null), objectDestroyed is the atomic flag
gating managed-object destruction, isArray selects scalar or array delete.
The corruption sentinels and the shared_mutex are modelled separately where a
claim needs them. -/
structure ControlBlock where
  strong : Nat
  weak : Nat
  ptr : Option Nat
  objectDestroyed : Bool
  isArray : Bool
deriving Repr, DecidableEq

/-- Observable events emitted by a control-block release operation, in program
order; used to state the sequencing contract of release_strong/release_weak. -/
inductive RCEvent
  | fetchSubStrong (prior : Nat)
  | fetchSubWeak (prior : Nat)
  | destroyManagedObject
  | readWeak (v : Nat)
  | readStrong (v : Nat)
  | deleteControlBlock
deriving Repr, DecidableEq

/-- Embedding of ControlBlock::destroy_object (VSharedPtr.hpp lines 221-246):
if the object_destroyed flag is already set, return; otherwise win the CAS,
set the flag, exchange the managed pointer to null under the exclusive lock,
and delete the payload when it was non-null.  The event records the payload
delete. -/
def destroyObject (cb : ControlBlock) : ControlBlock × List RCEvent :=
  if cb.objectDestroyed then (cb, [])
  else
    ({ cb with objectDestroyed := true, ptr := none },
     if cb.ptr.isSome then [RCEvent.destroyManagedObject] else [])

/-- Embedding of ControlBlock::add_strong (lines 269-275): relaxed fetch-add. -/
def addStrong (cb : ControlBlock) : ControlBlock :=
  { cb with strong := (cb.strong + 1) % W }

/-- Embedding of ControlBlock::add_weak (lines 277-283): relaxed fetch-add. -/
def addWeak (cb : ControlBlock) : ControlBlock :=
  { cb with weak := (cb.weak + 1) % W }

/-- Embedding of ControlBlock::try_add_strong (lines 285-300): the CAS loop
increments the strong counter iff it is currently positive. -/
def tryAddStrong (cb : ControlBlock) : Bool × ControlBlock :=
  if cb.strong > 0 then (true, { cb with strong := (cb.strong + 1) % W })
  else (false, cb)

/-- Embedding of ControlBlock::release_strong (lines 303-327): fetch-sub
(with release order in the source), underflow guard on the prior value, and
when the prior value was 1: destroy the managed object, read the weak counter,
and delete the control block iff that read returned 0.  The first component is
none exactly when the control block deleted itself. -/
def releaseStrong (cb : ControlBlock) : Option ControlBlock × List RCEvent :=
  let prior := cb.strong
  let cb1 : ControlBlock := { cb with strong := (cb.strong + (W - 1)) % W }
  if prior = 0 then (some cb1, [RCEvent.fetchSubStrong prior])
  else if prior = 1 then
    let d := destroyObject cb1
    let wk := d.1.weak
    if wk = 0 then
      (none, RCEvent.fetchSubStrong prior :: d.2 ++
        [RCEvent.readWeak wk, RCEvent.deleteControlBlock])
    else
      (some d.1, RCEvent.fetchSubStrong prior :: d.2 ++ [RCEvent.readWeak wk])
  else (some cb1, [RCEvent.fetchSubStrong prior])

/-- Embedding of ControlBlock::release_weak (lines 330-351): symmetric to
release_strong, but the managed object is not destroyed here; the strong
counter is read before any delete of the control block. -/
def releaseWeak (cb : ControlBlock) : Option ControlBlock × List RCEvent :=
  let prior := cb.weak
  let cb1 : ControlBlock := { cb with weak := (cb.weak + (W - 1)) % W }
  if prior = 0 then (some cb1, [RCEvent.fetchSubWeak prior])
  else if prior = 1 then
    let st := cb1.strong
    if st = 0 then
      (none, [RCEvent.fetchSubWeak prior, RCEvent.readStrong st,
        RCEvent.deleteControlBlock])
    else
      (some cb1, [RCEvent.fetchSubWeak prior, RCEvent.readStrong st])
  else (some cb1, [RCEvent.fetchSubWeak prior])

/-- Embedding of the handle state of ptr::VSharedPtr (lines 366-411): an
atomic pointer to a control block (modelled as an identifier) and an atomic
is-weak flag. -/
structure Handle where
  ctrl : Option Nat
  isWeak : Bool
deriving Repr, DecidableEq

/-- Null handle produced by the default and nullptr constructors
(lines 422-423). -/
def nullHandle : Handle := { ctrl := none, isWeak := false }

/-- Embedding of the VSharedPtr copy constructor (lines 440-446) acting on
the source handle together with the control block it refers to (the block
argument is irrelevant when the handle is null): bump the counter matching
the is-weak flag, then copy both fields. -/
def copyCtor (h : Handle) (cb : ControlBlock) : Handle × ControlBlock :=
  (h, if h.ctrl.isSome then (if h.isWeak then addWeak cb else addStrong cb)
      else cb)

/-- Embedding of VSharedPtr::make_weak (lines 553-562): a null or weak source
yields a null handle; otherwise a new handle on the same control block with
is-weak true and one more unit on the weak counter. -/
def makeWeak (strongRef : Handle) (cb : ControlBlock) : Handle × ControlBlock :=
  match strongRef.ctrl with
  | none => (nullHandle, cb)
  | some c =>
    if strongRef.isWeak then (nullHandle, cb)
    else ({ ctrl := some c, isWeak := true }, addWeak cb)

/-- Embedding of VSharedPtr::lock (lines 565-571): an already-strong handle
returns a copy; a weak null handle returns null; otherwise try_add_strong
decides between a fresh strong handle and null. -/
def lock (h : Handle) (cb : ControlBlock) : Handle × ControlBlock :=
  if !h.isWeak then copyCtor h cb
  else
    match h.ctrl with
    | none => (nullHandle, cb)
    | some c =>
      let t := tryAddStrong cb
      if t.1 then ({ ctrl := some c, isWeak := false }, t.2)
      else (nullHandle, t.2)

/-- Embedding of VSharedPtr::get (lines 534-538): null when the handle has no
control block or is weak, otherwise the control block's managed pointer. -/
def get (h : Handle) (cb : ControlBlock) : Option Nat :=
  match h.ctrl with
  | none => none
  | some _ => if h.isWeak then none else cb.ptr

/-- Embedding of VSharedPtr::expired (lines 591-594): true iff the control
block is absent or its strong count is zero. -/
def expired (h : Handle) (cb : ControlBlock) : Bool :=
  match h.ctrl with
  | none => true
  | some _ => decide (cb.strong = 0)

/-- Embedding of VSharedPtr::operator bool (lines 596-598): a weak handle is
truthy iff not expired; a strong handle is truthy iff get() is non-null. -/
def operatorBool (h : Handle) (cb : ControlBlock) : Bool :=
  if h.isWeak then !(expired h cb) else (get h cb).isSome

/-- Embedding of VSharedPtr::operator== against another handle
(line 630): compares the exposed pointers returned by get(). -/
def operatorEq (h1 : Handle) (cb1 : ControlBlock)
    (h2 : Handle) (cb2 : ControlBlock) : Bool :=
  decide (get h1 cb1 = get h2 cb2)

/-- Embedding of VSharedPtr::operator== against nullptr (line 632). -/
def operatorEqNull (h : Handle) (cb : ControlBlock) : Bool :=
  decide (get h cb = none)

/-- State of the std::shared_mutex owned by a control block: whether the
exclusive side is held and how many shared (reader) locks are held. -/
structure SharedMutex where
  exclusiveHeld : Bool
  sharedCount : Nat
deriving Repr, DecidableEq

/-- Embedding of ptr::detail::LockedProxy (VSharedPtr.hpp lines 131-159):
the RAII view returned by operator->.  It stores the managed pointer; the
std::unique_lock member is represented by the mutex-state transition of the
functions below. -/
structure LockedProxy where
  ptr : Nat
deriving Repr, DecidableEq

/-- Construction of a LockedProxy (lines 136-140): the unique_lock member
acquires the mutex exclusively, then a null managed pointer raises the
memory-safety error (the unique_lock releases during unwinding, so the net
mutex effect of the error path is none). -/
def mkLockedProxy (p : Option Nat) (m : SharedMutex) :
    Except String (LockedProxy × SharedMutex) :=
  match p with
  | none => Except.error "LockedProxy: null pointer"
  | some a => Except.ok ({ ptr := a }, { m with exclusiveHeld := true })

/-- Destruction of a LockedProxy: the unique_lock member releases the
exclusive lock. -/
def destroyLockedProxy (_p : LockedProxy) (m : SharedMutex) : SharedMutex :=
  { m with exclusiveHeld := false }

/-- Embedding of VSharedPtr::operator-> for single objects in thread-safe
mode (lines 491-501): raise the memory-safety error when the handle is weak
or null, otherwise return LockedProxy(c->get_ptr(), c->get_mutex()). -/
def operatorArrow (h : Handle) (cb : ControlBlock) (m : SharedMutex) :
    Except String (LockedProxy × SharedMutex) :=
  if h.isWeak then Except.error "operator->: cannot dereference weak pointer"
  else
    match h.ctrl with
    | none => Except.error "operator->: null pointer dereference"
    | some _ => mkLockedProxy cb.ptr m

/-- Modelled from the spec (for the refinement comparison of claim C6 only;
the source of truth is operatorArrow above): the spec says the returned view
"holds a shared lock on the control block's mutex", so this variant acquires
the shared (reader) side instead of the exclusive side. -/
def operatorArrowSpecShared (h : Handle) (cb : ControlBlock) (m : SharedMutex) :
    Except String (LockedProxy × SharedMutex) :=
  if h.isWeak then Except.error "operator->: cannot dereference weak pointer"
  else
    match h.ctrl with
    | none => Except.error "operator->: null pointer dereference"
    | some _ =>
      match cb.ptr with
      | none => Except.error "LockedProxy: null pointer"
      | some a => Except.ok ({ ptr := a }, { m with sharedCount := m.sharedCount + 1 })

/-- System state for the handle/counter conservation invariant: the live
control blocks (keyed by identity) and the multiset of live handles, as a
list.  Deleting a control block removes its key. -/
structure RCSys where
  cbs : Nat → Option ControlBlock
  handles : List Handle

/-- Point update of the control-block store. -/
def updateCb (f : Nat → Option ControlBlock) (cid : Nat)
    (v : Option ControlBlock) : Nat → Option ControlBlock :=
  fun c => if c = cid then v else f c

/-- Dummy control block passed where the source never reads one (null-handle
paths). -/
def dummyCb : ControlBlock :=
  { strong := 0, weak := 0, ptr := none, objectDestroyed := false, isArray := false }

/-- Predicate: the handle holds a strong unit on control block cid. -/
def isStrongOn (cid : Nat) (h : Handle) : Bool :=
  h.ctrl == some cid && !h.isWeak

/-- Predicate: the handle holds a weak unit on control block cid. -/
def isWeakOn (cid : Nat) (h : Handle) : Bool :=
  h.ctrl == some cid && h.isWeak

/-- Embedding of VSharedPtr::release (lines 413-418): release one unit of
the kind recorded in the handle, on the block it refers to. -/
def releaseUnit (cbs : Nat → Option ControlBlock) (h : Handle) :
    Nat → Option ControlBlock :=
  match h.ctrl with
  | none => cbs
  | some cid =>
    match cbs cid with
    | none => cbs
    | some cb =>
      updateCb cbs cid (if h.isWeak then (releaseWeak cb).1 else (releaseStrong cb).1)

/-- Acquisition of one unit of the kind recorded in the handle (the
add_strong/add_weak call of the copy paths, lines 440-446). -/
def bumpUnit (cbs : Nat → Option ControlBlock) (h : Handle) :
    Nat → Option ControlBlock :=
  match h.ctrl with
  | none => cbs
  | some cid =>
    match cbs cid with
    | none => cbs
    | some cb =>
      updateCb cbs cid (some (if h.isWeak then addWeak cb else addStrong cb))

/-- Public operations of VSharedPtr, with handles named by their index in the
handle list and fresh control-block identities supplied by the allocator. -/
inductive Op
  | newFromRaw (cid : Nat) (ptrAddr : Option Nat) (isArray : Bool)
  | defaultCtor
  | copyCtor (src : Nat)
  | moveCtor (src : Nat)
  | copyAssign (dst src : Nat)
  | moveAssign (dst src : Nat)
  | reset (i : Nat)
  | makeWeakOp (src : Nat)
  | lockOp (src : Nat)
  | weakAssign (dst src : Nat)
  | swapOp (i j : Nat)
  | dtor (i : Nat)
deriving Repr, DecidableEq

/-- Transition function of the handle system; each arm is the embedding of
the correspondingly named member of VSharedPtr (constructor from a raw
pointer lines 425-438, default and nullptr constructors 422-423, copy
constructor 440-446, move constructor 448-452, copy assignment 480-483, move
assignment 484-487, reset 607, make_weak 553-562, lock 565-571, weak 574-588,
swap 613-627, destructor 477).  Out-of-range indices and an allocator that
returns an already-used identity leave the state unchanged; neither arises
in the source (references are always valid and new yields fresh storage). -/
def step (s : RCSys) (op : Op) : RCSys :=
  match op with
  | Op.newFromRaw cid ptrAddr isArray =>
    match ptrAddr with
    | none => { s with handles := s.handles ++ [nullHandle] }
    | some a =>
      match s.cbs cid with
      | some _ => s
      | none =>
        { cbs := updateCb s.cbs cid (some
            { strong := 1, weak := 0, ptr := some a,
              objectDestroyed := false, isArray := isArray }),
          handles := s.handles ++ [{ ctrl := some cid, isWeak := false }] }
  | Op.defaultCtor => { s with handles := s.handles ++ [nullHandle] }
  | Op.copyCtor src =>
    match s.handles[src]? with
    | none => s
    | some h =>
      { cbs := bumpUnit s.cbs h, handles := s.handles ++ [h] }
  | Op.moveCtor src =>
    match s.handles[src]? with
    | none => s
    | some h =>
      { s with handles := (s.handles.set src nullHandle) ++ [h] }
  | Op.copyAssign dst src =>
    if dst = src then s
    else
      match s.handles[dst]?, s.handles[src]? with
      | some hd, some hs =>
        { cbs := releaseUnit (bumpUnit s.cbs hs) hd,
          handles := s.handles.set dst hs }
      | _, _ => s
  | Op.moveAssign dst src =>
    if dst = src then s
    else
      match s.handles[dst]?, s.handles[src]? with
      | some hd, some hs =>
        { cbs := releaseUnit s.cbs hd,
          handles := (s.handles.set dst hs).set src nullHandle }
      | _, _ => s
  | Op.reset i =>
    match s.handles[i]? with
    | none => s
    | some h =>
      { cbs := releaseUnit s.cbs h, handles := s.handles.set i nullHandle }
  | Op.makeWeakOp src =>
    match s.handles[src]? with
    | none => s
    | some h =>
      match h.ctrl with
      | none => { s with handles := s.handles ++ [nullHandle] }
      | some cid =>
        match s.cbs cid with
        | none => s
        | some cb =>
          let r := makeWeak h cb
          { cbs := updateCb s.cbs cid (some r.2), handles := s.handles ++ [r.1] }
  | Op.lockOp src =>
    match s.handles[src]? with
    | none => s
    | some h =>
      match h.ctrl with
      | none => { s with handles := s.handles ++ [(lock h dummyCb).1] }
      | some cid =>
        match s.cbs cid with
        | none => s
        | some cb =>
          let r := lock h cb
          { cbs := updateCb s.cbs cid (some r.2), handles := s.handles ++ [r.1] }
  | Op.weakAssign dst src =>
    if dst = src then s
    else
      match s.handles[dst]?, s.handles[src]? with
      | some hd, some hs =>
        let cbs1 := releaseUnit s.cbs hd
        match hs.ctrl with
        | none =>
          { cbs := cbs1, handles := s.handles.set dst nullHandle }
        | some cid =>
          if hs.isWeak then
            { cbs := cbs1, handles := s.handles.set dst nullHandle }
          else
            match cbs1 cid with
            | none => { cbs := cbs1, handles := s.handles.set dst nullHandle }
            | some cb =>
              { cbs := updateCb cbs1 cid (some (addWeak cb)),
                handles := s.handles.set dst { ctrl := some cid, isWeak := true } }
      | _, _ => s
  | Op.swapOp i j =>
    if i = j then s
    else
      match s.handles[i]?, s.handles[j]? with
      | some hi, some hj =>
        { s with handles := (s.handles.set i hj).set j hi }
      | _, _ => s
  | Op.dtor i =>
    match s.handles[i]? with
    | none => s
    | some h =>
      { cbs := releaseUnit s.cbs h, handles := s.handles.eraseIdx i }

/-- Number of strong units the live handles hold on block cid. -/
def strongCount (s : RCSys) (cid : Nat) : Nat :=
  s.handles.countP (isStrongOn cid)

/-- Number of weak units the live handles hold on block cid. -/
def weakCount (s : RCSys) (cid : Nat) : Nat :=
  s.handles.countP (isWeakOn cid)

/-- Consistency of a control-block store with a multiset of live handles:
each existing block's strong (weak) counter equals the number of strong
(weak) handles on it, and every handle's block exists. -/
def Consistent (cbs : Nat → Option ControlBlock) (l : List Handle) : Prop :=
  (∀ cid cb, cbs cid = some cb →
    cb.strong = l.countP (isStrongOn cid) ∧ cb.weak = l.countP (isWeakOn cid))
  ∧ (∀ h ∈ l, ∀ cid, h.ctrl = some cid → (cbs cid).isSome)

/-- Invariant of claim C7: every live handle has contributed exactly one unit
to the matching counter of its control block. -/
def Inv (s : RCSys) : Prop :=
  Consistent s.cbs s.handles

end RC

namespace TC

/-- Embedding of GC::gc_object (gc.h lines 65-90) as seen by the collector:
the atomic int root_ref_cnt and the contents of the intrusive embedded-handle
list (first/next), recorded as the object fields of the linked gc_base_ptr
handles, head first.  The mark bit is carried by the collector functions
below. -/
structure GcObject where
  rootRefCnt : Int
  refs : List (Option Nat)
deriving Repr, DecidableEq

/-- Identity-keyed store of the live gc_object headers. -/
abbrev Heap := List (Nat × GcObject)

/-- Heap lookup by object identity. -/
def lookupObj (heap : Heap) (c : Nat) : Option GcObject :=
  (heap.find? (fun p => p.1 == c)).map Prod.snd

/-- Point modification of one heap object. -/
def heapModify (heap : Heap) (c : Nat) (f : GcObject → GcObject) : Heap :=
  heap.map (fun p => if p.1 = c then (p.1, f p.2) else p)

/-- Embedding of gc_base_ptr::inc_root (gc.cpp lines 71-86): whether by CAS
above zero or under the mutex at zero, the value effect is one increment. -/
def incRoot (heap : Heap) (c : Nat) : Heap :=
  heapModify heap c (fun o => { o with rootRefCnt := o.rootRefCnt + 1 })

/-- Embedding of gc_base_ptr::dec_root (gc.cpp lines 89-92). -/
def decRoot (heap : Heap) (c : Nat) : Heap :=
  heapModify heap c (fun o => { o with rootRefCnt := o.rootRefCnt - 1 })

/-- Phase 1 of gc_collect (gc.cpp lines 294-311), marking part: the objects
whose root_ref_cnt is nonzero get mark = true, every other registered object
gets mark = false. -/
def rootsOf (heap : Heap) (regs : List Nat) : List Nat :=
  regs.filter (fun c =>
    match lookupObj heap c with
    | some o => decide (o.rootRefCnt ≠ 0)
    | none => false)

/-- One push_back of phase 1 (gc.cpp lines 298-306): a non-null embedded
referent goes onto the work list, unconditionally.  The work list is kept
top-of-stack first, so a push_back of the source is a cons here and a
pop_back is a head match. -/
def pushRef (acc : List Nat) (r : Option Nat) : List Nat :=
  match r with
  | some x => x :: acc
  | none => acc

/-- One push_back of phase 2 (gc.cpp lines 322-331): a non-null embedded
referent goes onto the work list unless it is already marked. -/
def pushUnmarked (marked : List Nat) (acc : List Nat) (r : Option Nat) : List Nat :=
  match r with
  | some x => if x ∈ marked then acc else x :: acc
  | none => acc

/-- Phase 1 of gc_collect, work-list part: each root-referenced object pushes
the non-null referents of its embedded handles, in registry order then list
order. -/
def seedPending (heap : Heap) (regs : List Nat) : List Nat :=
  regs.foldl (fun acc c =>
    match lookupObj heap c with
    | some o =>
      if o.rootRefCnt ≠ 0 then o.refs.foldl pushRef acc
      else acc
    | none => acc) []

/-- Sum of the embedded-handle list lengths over the whole heap; only used
for the termination measure of the mark loop. -/
def totalRefs (heap : Heap) : Nat :=
  (heap.map (fun p => p.2.refs.length)).sum

/-- Set of object identities present in the heap. -/
def heapDom (heap : Heap) : Finset Nat :=
  (heap.map Prod.fst).toFinset

theorem length_foldl_pushUnmarked (refs : List (Option Nat)) (excl : List Nat)
    (acc : List Nat) :
    (refs.foldl (pushUnmarked excl) acc).length ≤ acc.length + refs.length := by
  induction refs generalizing acc with
  | nil => simp
  | cons r rest ih =>
    have hstep : (pushUnmarked excl acc r).length ≤ acc.length + 1 := by
      cases r with
      | none => simp [pushUnmarked]
      | some x =>
        by_cases hx : x ∈ excl <;> simp [pushUnmarked, hx]
    calc ((r :: rest).foldl (pushUnmarked excl) acc).length
        = (rest.foldl (pushUnmarked excl) (pushUnmarked excl acc r)).length := rfl
      _ ≤ (pushUnmarked excl acc r).length + rest.length := ih _
      _ ≤ acc.length + 1 + rest.length := by omega
      _ = acc.length + (r :: rest).length := by simp; omega

theorem mem_heapDom_of_lookup {heap : Heap} {c : Nat} {o : GcObject}
    (h : lookupObj heap c = some o) : c ∈ heapDom heap := by
  unfold lookupObj at h
  obtain ⟨p, hp, hpo⟩ := Option.map_eq_some.mp h
  have hmem := List.mem_of_find?_eq_some hp
  have hbeq := List.find?_some hp
  have hc : p.1 = c := by simpa using hbeq
  unfold heapDom
  exact List.mem_toFinset.mpr (hc ▸ List.mem_map_of_mem Prod.fst hmem)

theorem refsLen_le_totalRefs {heap : Heap} {c : Nat} {o : GcObject}
    (h : lookupObj heap c = some o) : o.refs.length ≤ totalRefs heap := by
  unfold lookupObj at h
  obtain ⟨p, hp, hpo⟩ := Option.map_eq_some.mp h
  have hmem := List.mem_of_find?_eq_some hp
  unfold totalRefs
  have : p.2.refs.length ∈ heap.map (fun p => p.2.refs.length) :=
    List.mem_map_of_mem _ hmem
  have hle := List.single_le_sum (l := heap.map (fun p => p.2.refs.length))
    (fun x _ => Nat.zero_le x) _ this
  simpa [hpo] using hle

/-- Embedding of phase 2 of gc_collect (gc.cpp lines 314-332): pop the top of
the work list; skip it when already marked; otherwise mark it and push its
non-null, unmarked embedded referents.  The source presumes every popped
identity is a registered object; the arm for an absent identity (which marks
and pushes nothing) only makes the function total. -/
def propagate (heap : Heap) (marked : List Nat) (pending : List Nat) : List Nat :=
  match pending with
  | [] => marked
  | c :: rest =>
    if hm : c ∈ marked then propagate heap marked rest
    else
      match hl : lookupObj heap c with
      | none => propagate heap (c :: marked) rest
      | some o =>
        propagate heap (c :: marked) (o.refs.foldl (pushUnmarked (c :: marked)) rest)
termination_by
  (heapDom heap \ marked.toFinset).card * (1 + totalRefs heap) + pending.length
decreasing_by
  · exact Nat.add_lt_add_left (Nat.lt_succ_self _) _
  · have hsub : heapDom heap \ (c :: marked).toFinset ⊆ heapDom heap \ marked.toFinset := by
      apply Finset.sdiff_subset_sdiff (le_refl _)
      intro x hx
      simp only [List.toFinset_cons]
      exact Finset.mem_insert_of_mem hx
    exact Nat.add_lt_add_of_le_of_lt
      (Nat.mul_le_mul_right _ (Finset.card_le_card hsub)) (Nat.lt_succ_self _)
  · have hc : c ∈ heapDom heap := mem_heapDom_of_lookup hl
    have hcd : c ∈ heapDom heap \ marked.toFinset :=
      Finset.mem_sdiff.mpr ⟨hc, by simpa using hm⟩
    have hcard : (heapDom heap \ (c :: marked).toFinset).card
        < (heapDom heap \ marked.toFinset).card := by
      apply Finset.card_lt_card
      rw [Finset.ssubset_iff_of_subset]
      · exact ⟨c, hcd, by simp⟩
      · apply Finset.sdiff_subset_sdiff (le_refl _)
        intro x hx
        simp only [List.toFinset_cons]
        exact Finset.mem_insert_of_mem hx
    have hlen := length_foldl_pushUnmarked o.refs (c :: marked) rest
    have hT : o.refs.length ≤ totalRefs heap := refsLen_le_totalRefs hl
    have hmul : ((heapDom heap \ (c :: marked).toFinset).card + 1) * (1 + totalRefs heap)
        ≤ (heapDom heap \ marked.toFinset).card * (1 + totalRefs heap) :=
      Nat.mul_le_mul_right _ hcard
    have hdist : ((heapDom heap \ (c :: marked).toFinset).card + 1) * (1 + totalRefs heap)
        = (heapDom heap \ (c :: marked).toFinset).card * (1 + totalRefs heap)
          + (1 + totalRefs heap) := by ring
    simp only [List.length_cons]
    omega

/-- Mark phase of a collection cycle: the marked set after phases 1 and 2. -/
def collectMarked (heap : Heap) (regs : List Nat) : List Nat :=
  propagate heap (rootsOf heap regs) (seedPending heap regs)

/-- Global collector state (gc.cpp lines 16-19): the heap contents, the
registry all_objects in order, the allocation countdown gc_counter, and the
thread-local currently-constructing-object hint. -/
structure GcState where
  heap : Heap
  allObjects : List Nat
  gcCounter : Int
  current : Option Nat
deriving Repr, DecidableEq

/-- Embedding of GC::gc_collect (gc.cpp lines 279-365).  An empty registry
returns immediately.  Otherwise: phases 1 and 2 compute the marks; phase 3
stably partitions the registry, keeping the marked objects in order and
moving the garbage tail (in order) to a local list, and recalibrates
gc_counter to max(2 * live, 1024); phase 4 invokes each garbage object's
destructor thunk outside the lock, in partition order (the returned list,
one entry per finalised object); phase 5 frees their storage.  -/
def gc_collect (s : GcState) : GcState × List Nat :=
  if s.allObjects = [] then (s, [])
  else
    let marked := collectMarked s.heap s.allObjects
    let live := s.allObjects.filter (fun c => decide (c ∈ marked))
    let garbage := s.allObjects.filter (fun c => !decide (c ∈ marked))
    ({ s with
        allObjects := live,
        gcCounter := max (2 * (live.length : Int)) 1024,
        heap := s.heap.filter (fun p => !decide (p.1 ∈ garbage)) },
     garbage)

/-- Embedding of GC::New of a single object, success path (gc.h lines
211-265).  The raw block is obtained from operator new (objId is the fresh
identity it yields); the first locked region performs gc_counter.fetch_sub(1)
whose comparison against 0 has an empty body; outside the lock, gc_collect
runs iff the re-loaded counter is negative; the second locked region
placement-constructs the header, stores the handle's object pointer, sets
root_ref_cnt to 1 when the creating handle classified as ROOT, and appends
the header to all_objects; then the payload is value-constructed under the
current-object hint (the embedded handles it creates become refsBuilt), and
the hint is restored.  The Bool result records whether gc_collect ran. -/
def newSingle (s : GcState) (objId : Nat) (isRoot : Bool)
    (refsBuilt : List (Option Nat)) : GcState × Bool :=
  let s1 : GcState := { s with gcCounter := s.gcCounter - 1 }
  let doCollect := decide (s1.gcCounter < 0)
  let s2 := if doCollect then (gc_collect s1).1 else s1
  let obj : GcObject := { rootRefCnt := if isRoot then 1 else 0, refs := [] }
  let s3 : GcState :=
    { s2 with heap := s2.heap ++ [(objId, obj)], allObjects := s2.allObjects ++ [objId] }
  let s4 : GcState :=
    { s3 with heap := heapModify s3.heap objId (fun o => { o with refs := refsBuilt }) }
  (s4, doCollect)

/-- Embedding of GC::New of an array, success path (gc.h lines 272-327):
identical except that gc_collect runs iff the value fetch_sub(1) returned
(the counter before the decrement) is at most 0, and the payload is the
default-constructed element array. -/
def newArray (s : GcState) (objId : Nat) (isRoot : Bool)
    (refsBuilt : List (Option Nat)) : GcState × Bool :=
  let doCollect := decide (s.gcCounter ≤ 0)
  let s1 : GcState := { s with gcCounter := s.gcCounter - 1 }
  let s2 := if doCollect then (gc_collect s1).1 else s1
  let obj : GcObject := { rootRefCnt := if isRoot then 1 else 0, refs := [] }
  let s3 : GcState :=
    { s2 with heap := s2.heap ++ [(objId, obj)], allObjects := s2.allObjects ++ [objId] }
  let s4 : GcState :=
    { s3 with heap := heapModify s3.heap objId (fun o => { o with refs := refsBuilt }) }
  (s4, doCollect)

/-- Trace events of an array allocation whose payload construction fails. -/
inductive TCEvent
  | constructed (i : Nat)
  | threw
  | destroyed (i : Nat)
deriving Repr, DecidableEq

/-- Embedding of GC::New of an array when the constructor of element failAt
throws (gc.h lines 272-327, catch path).  After the counter/collect step and
the locked registration, elements 0 .. failAt-1 are constructed; the throw is
caught; std::destroy(begin, constructed_end) destroys the constructed prefix
iterating forward from begin; when the creating handle classified as ROOT the
root count is decremented; the handle's object pointer and display pointer
are cleared; the hint is restored; the exception propagates.  The result is
the state at the point of propagation, the creating handle's object field,
and the event trace. -/
def newArrayFail (s : GcState) (objId : Nat) (isRoot : Bool)
    (failAt : Nat) : GcState × Option Nat × List TCEvent :=
  let doCollect := decide (s.gcCounter ≤ 0)
  let s1 : GcState := { s with gcCounter := s.gcCounter - 1 }
  let s2 := if doCollect then (gc_collect s1).1 else s1
  let obj : GcObject := { rootRefCnt := if isRoot then 1 else 0, refs := [] }
  let s3 : GcState :=
    { s2 with heap := s2.heap ++ [(objId, obj)], allObjects := s2.allObjects ++ [objId] }
  let events : List TCEvent :=
    (List.range failAt).map TCEvent.constructed ++ [TCEvent.threw]
      ++ (List.range failAt).map TCEvent.destroyed
  let s4 : GcState := if isRoot then { s3 with heap := decRoot s3.heap objId } else s3
  (s4, none, events)

/-- Modelled from the spec (for comparison in claim C4 only; the source of
truth is newArrayFail above): the spec requires the partially-constructed
prefix to be destroyed in reverse order, so the destruction part of the trace
would run from element failAt-1 down to 0. -/
def specReverseDestroyEvents (failAt : Nat) : List TCEvent :=
  (List.range failAt).map TCEvent.constructed ++ [TCEvent.threw]
    ++ ((List.range failAt).reverse.map TCEvent.destroyed)

/-- Classification tag of a gc_base_ptr (gc.h line 101). -/
inductive PtrType
  | ROOT
  | GC_HEAP
deriving Repr, DecidableEq

/-- Embedding of the data of GC::gc_base_ptr (gc.h lines 96-123): the
classification tag fixed at construction and the atomic object pointer.  The
intrusive next link is represented by the object's refs list in the heap. -/
structure GcBasePtr where
  type : PtrType
  object : Option Nat
deriving Repr, DecidableEq

/-- Embedding of the gc_base_ptr move constructor (gc.cpp lines 135-172).
destInsideCurrent is the outcome of the address-range test of this against
the currently-constructing object, which fixes the new handle's tag.  A
GC_HEAP destination publishes the object and links itself into the current
object's embedded-handle list (both the null and non-null branches); a ROOT
destination with a ROOT source steals the reference, nulling the source with
no count change; a ROOT destination with a GC_HEAP source increments the
root count and leaves the source intact.  Returns (destination, source
afterwards, state afterwards). -/
def gcMoveCtor (s : GcState) (destInsideCurrent : Bool) (src : GcBasePtr) :
    GcBasePtr × GcBasePtr × GcState :=
  let ty := if destInsideCurrent then PtrType.GC_HEAP else PtrType.ROOT
  let o2 := src.object
  match ty with
  | PtrType.GC_HEAP =>
    match s.current with
    | some cur =>
      ({ type := ty, object := o2 }, src,
       { s with heap := heapModify s.heap cur (fun o => { o with refs := o2 :: o.refs }) })
    | none => ({ type := ty, object := o2 }, src, s)
  | PtrType.ROOT =>
    match o2 with
    | none => ({ type := ty, object := none }, src, s)
    | some ob =>
      match src.type with
      | PtrType.ROOT =>
        ({ type := ty, object := o2 }, { src with object := none }, s)
      | PtrType.GC_HEAP =>
        ({ type := ty, object := o2 }, src, { s with heap := incRoot s.heap ob })

/-- Embedding of the gc_base_ptr move assignment (gc.cpp lines 215-246).
Identical referents return immediately; a GC_HEAP destination just stores; a
ROOT destination with a ROOT source swaps the two object fields reusing both
root references with no count change; a ROOT destination with a GC_HEAP
source decrements the old referent and increments the new one.  Returns
(destination, source afterwards, state afterwards). -/
def gcMoveAssign (s : GcState) (dst src : GcBasePtr) :
    GcBasePtr × GcBasePtr × GcState :=
  let o1 := dst.object
  let o2 := src.object
  if o1 = o2 then (dst, src, s)
  else
    match dst.type with
    | PtrType.GC_HEAP => ({ dst with object := o2 }, src, s)
    | PtrType.ROOT =>
      match src.type with
      | PtrType.ROOT =>
        ({ dst with object := o2 }, { src with object := o1 }, s)
      | PtrType.GC_HEAP =>
        let s1 := match o1 with
          | some a => { s with heap := decRoot s.heap a }
          | none => s
        let s2 := match o2 with
          | some b => { s1 with heap := incRoot s1.heap b }
          | none => s1
        ({ dst with object := o2 }, src, s2)

/-- Reachability along embedded-handle edges: an edge runs from an object to
each non-null referent of its embedded handles. -/
inductive Reaches (heap : Heap) : Nat → Nat → Prop
  | refl (c : Nat) : Reaches heap c c
  | step (a b c : Nat) (o : GcObject) :
      Reaches heap a b → lookupObj heap b = some o → some c ∈ o.refs →
      Reaches heap a c

/-- Reachability from the root set: the objects transitively reachable from
a registered object whose root_ref_cnt is positive. -/
def RootReachable (s : GcState) (c : Nat) : Prop :=
  ∃ r ∈ s.allObjects, ∃ o, lookupObj s.heap r = some o ∧ 0 < o.rootRefCnt ∧
    Reaches s.heap r c

/-- Reachability from a nonzero-rooted registry object, the exact seed
condition the collector tests (root_ref_cnt != 0). -/
def MarkReachable (heap : Heap) (regs : List Nat) (c : Nat) : Prop :=
  ∃ r ∈ regs, (∃ o, lookupObj heap r = some o ∧ o.rootRefCnt ≠ 0) ∧
    Reaches heap r c

end TC

section Theorems

open RC TC

/-- Claim C8: for every control block whose strong (respectively weak)
counter is 0, a call to release_strong (respectively release_weak) is a
guarded no-op: it does not destroy the managed object and does not destroy
(delete) the control block. -/
theorem c8_underflow_guard (cb : ControlBlock) :
    (cb.strong = 0 →
      (∃ cb2, (releaseStrong cb).1 = some cb2 ∧
        cb2.objectDestroyed = cb.objectDestroyed ∧ cb2.ptr = cb.ptr)
      ∧ RCEvent.destroyManagedObject ∉ (releaseStrong cb).2
      ∧ RCEvent.deleteControlBlock ∉ (releaseStrong cb).2)
  ∧ (cb.weak = 0 →
      (∃ cb2, (releaseWeak cb).1 = some cb2 ∧
        cb2.objectDestroyed = cb.objectDestroyed ∧ cb2.ptr = cb.ptr)
      ∧ RCEvent.destroyManagedObject ∉ (releaseWeak cb).2
      ∧ RCEvent.deleteControlBlock ∉ (releaseWeak cb).2) := by
  constructor
  · intro hs
    refine ⟨⟨{ cb with strong := (cb.strong + (W - 1)) % W }, ?_, rfl, rfl⟩, ?_, ?_⟩
      <;> simp [releaseStrong, hs]
  · intro hw
    refine ⟨⟨{ cb with weak := (cb.weak + (W - 1)) % W }, ?_, rfl, rfl⟩, ?_, ?_⟩
      <;> simp [releaseWeak, hw]

/-- Witness for c8_underflow_guard at a concrete control block with both
counters 0. -/
theorem c8_underflow_guard_witness :
    ((∃ cb2, (releaseStrong
        { strong := 0, weak := 0, ptr := some 1,
          objectDestroyed := false, isArray := false }).1 = some cb2 ∧
        cb2.objectDestroyed = false ∧ cb2.ptr = some 1)
      ∧ RCEvent.destroyManagedObject ∉ (releaseStrong
        { strong := 0, weak := 0, ptr := some 1,
          objectDestroyed := false, isArray := false }).2
      ∧ RCEvent.deleteControlBlock ∉ (releaseStrong
        { strong := 0, weak := 0, ptr := some 1,
          objectDestroyed := false, isArray := false }).2)
  ∧ ((∃ cb2, (releaseWeak
        { strong := 0, weak := 0, ptr := some 1,
          objectDestroyed := false, isArray := false }).1 = some cb2 ∧
        cb2.objectDestroyed = false ∧ cb2.ptr = some 1)
      ∧ RCEvent.destroyManagedObject ∉ (releaseWeak
        { strong := 0, weak := 0, ptr := some 1,
          objectDestroyed := false, isArray := false }).2
      ∧ RCEvent.deleteControlBlock ∉ (releaseWeak
        { strong := 0, weak := 0, ptr := some 1,
          objectDestroyed := false, isArray := false }).2) :=
  ⟨(c8_underflow_guard _).1 rfl, (c8_underflow_guard _).2 rfl⟩

/-- Claim C3: release_strong performs the fetch-sub (with release ordering in
the source), and when the prior strong value was 1 it first destroys the
managed object, then reads the weak counter, and deletes the control block
iff that read returned 0; the trace equation shows the weak-counter read
strictly between the managed-object destruction and any deletion of the
control block. -/
theorem c3_release_strong_order (cb : ControlBlock)
    (h1 : cb.strong = 1) (h2 : cb.objectDestroyed = false) (h3 : cb.ptr.isSome) :
    ((releaseStrong cb).1 = none ↔ cb.weak = 0)
  ∧ (releaseStrong cb).2 =
      [RCEvent.fetchSubStrong 1, RCEvent.destroyManagedObject, RCEvent.readWeak cb.weak]
        ++ (if cb.weak = 0 then [RCEvent.deleteControlBlock] else []) := by
  obtain ⟨s, w, p, d, arr⟩ := cb
  simp only at h1 h2 h3
  subst h1 h2
  obtain ⟨a, rfl⟩ := Option.isSome_iff_exists.mp h3
  by_cases hw : w = 0 <;> simp [releaseStrong, destroyObject, hw]

/-- Witness for c3_release_strong_order at a concrete control block with one
strong reference, no weak reference and a live managed object. -/
theorem c3_release_strong_order_witness :
    ((releaseStrong
        { strong := 1, weak := 0, ptr := some 7,
          objectDestroyed := false, isArray := false }).1 = none ↔ (0 : Nat) = 0)
  ∧ (releaseStrong
        { strong := 1, weak := 0, ptr := some 7,
          objectDestroyed := false, isArray := false }).2 =
      [RCEvent.fetchSubStrong 1, RCEvent.destroyManagedObject, RCEvent.readWeak 0]
        ++ (if (0 : Nat) = 0 then [RCEvent.deleteControlBlock] else []) :=
  c3_release_strong_order
    { strong := 1, weak := 0, ptr := some 7,
      objectDestroyed := false, isArray := false } rfl rfl rfl

/-- Claim C2: a weak handle obtained by make_weak from a non-null strong
handle locks to a non-null strong handle iff the control block's strong
counter is nonzero at lock time, and locks to null once the strong counter
has reached zero; lock on an already-strong handle returns a copy, and lock
on a null handle returns a null handle. -/
theorem c2_weak_lock (s : Handle) (cb cb2 : ControlBlock) (c : Nat)
    (hs : s.isWeak = false) (hc : s.ctrl = some c) :
    ((makeWeak s cb).1.ctrl = some c ∧ (makeWeak s cb).1.isWeak = true)
  ∧ ((lock (makeWeak s cb).1 cb2).1.ctrl ≠ none ↔ cb2.strong ≠ 0)
  ∧ (cb2.strong ≠ 0 →
      (lock (makeWeak s cb).1 cb2).1 = { ctrl := some c, isWeak := false }
      ∧ (lock (makeWeak s cb).1 cb2).2.strong = (cb2.strong + 1) % W)
  ∧ (cb2.strong = 0 → (lock (makeWeak s cb).1 cb2).1 = nullHandle)
  ∧ (∀ h : Handle, h.isWeak = false → (lock h cb2).1 = h)
  ∧ (∀ h : Handle, h.ctrl = none → (lock h cb2).1.ctrl = none) := by
  refine ⟨?_, ?_, ?_, ?_, ?_, ?_⟩
  · simp [makeWeak, hc, hs]
  · by_cases h0 : cb2.strong = 0
    · simp [makeWeak, lock, tryAddStrong, hc, hs, h0, nullHandle]
    · simp [makeWeak, lock, tryAddStrong, hc, hs, h0, Nat.pos_of_ne_zero h0,
        nullHandle]
  · intro h0
    simp [makeWeak, lock, tryAddStrong, hc, hs, Nat.pos_of_ne_zero h0]
  · intro h0
    simp [makeWeak, lock, tryAddStrong, hc, hs, h0, nullHandle]
  · intro h hw
    simp [lock, copyCtor, hw]
  · intro h hn
    by_cases hw : h.isWeak <;> simp [lock, copyCtor, hn, hw, nullHandle]

/-- Witness for c2_weak_lock at a concrete strong handle and a concrete live
control block. -/
theorem c2_weak_lock_witness :
    (makeWeak { ctrl := some 3, isWeak := false } dummyCb).1.ctrl = some 3
  ∧ (lock (makeWeak { ctrl := some 3, isWeak := false } dummyCb).1
      { strong := 2, weak := 1, ptr := some 9,
        objectDestroyed := false, isArray := false }).1 =
      { ctrl := some 3, isWeak := false } :=
  ⟨(c2_weak_lock { ctrl := some 3, isWeak := false } dummyCb
      { strong := 2, weak := 1, ptr := some 9,
        objectDestroyed := false, isArray := false } 3 rfl rfl).1.1,
   ((c2_weak_lock { ctrl := some 3, isWeak := false } dummyCb
      { strong := 2, weak := 1, ptr := some 9,
        objectDestroyed := false, isArray := false } 3 rfl rfl).2.2.1
      (by decide)).1⟩

/-- Claim C10: get() on a weak handle returns null even while the managed
object is alive; a live weak handle therefore compares equal to nullptr and
to any other weak handle under operator==, while its explicit operator bool
is true exactly when the object is not expired (hence true here). -/
theorem c10_weak_get_null (h : Handle) (cb : ControlBlock) (c : Nat)
    (hw : h.isWeak = true) (hc : h.ctrl = some c) (halive : cb.strong ≠ 0) :
    RC.get h cb = none
  ∧ operatorEqNull h cb = true
  ∧ (∀ h2 cb2, h2.isWeak = true → operatorEq h cb h2 cb2 = true)
  ∧ operatorBool h cb = true
  ∧ (∀ cb3, operatorBool h cb3 = !(expired h cb3)) := by
  refine ⟨?_, ?_, ?_, ?_, ?_⟩
  · simp [RC.get, hc, hw]
  · simp [operatorEqNull, RC.get, hc, hw]
  · intro h2 cb2 hw2
    cases hc2 : h2.ctrl <;> simp [operatorEq, RC.get, hc, hw, hc2, hw2]
  · simp [operatorBool, expired, RC.get, hc, hw, halive]
  · intro cb3
    simp [operatorBool, hw]

/-- Witness for c10_weak_get_null at a concrete live weak handle. -/
theorem c10_weak_get_null_witness :
    RC.get { ctrl := some 4, isWeak := true }
      { strong := 1, weak := 1, ptr := some 11,
        objectDestroyed := false, isArray := false } = none
  ∧ operatorBool { ctrl := some 4, isWeak := true }
      { strong := 1, weak := 1, ptr := some 11,
        objectDestroyed := false, isArray := false } = true :=
  ⟨(c10_weak_get_null { ctrl := some 4, isWeak := true }
      { strong := 1, weak := 1, ptr := some 11,
        objectDestroyed := false, isArray := false } 4 rfl rfl (by decide)).1,
   (c10_weak_get_null { ctrl := some 4, isWeak := true }
      { strong := 1, weak := 1, ptr := some 11,
        objectDestroyed := false, isArray := false } 4 rfl rfl
        (by decide)).2.2.2.1⟩

/-- Counterexample to claim C6 as stated: at a concrete strong non-null
handle, operator-> returns a view whose RAII member is a unique_lock, so the
mutex ends up exclusively held with the reader count unchanged; the
spec-modelled shared-lock version would instead leave the exclusive side free
and increment the reader count, and the two computations differ. -/
theorem c6_counterexample :
    operatorArrow { ctrl := some 0, isWeak := false }
      { strong := 1, weak := 0, ptr := some 42,
        objectDestroyed := false, isArray := false }
      { exclusiveHeld := false, sharedCount := 0 }
      = Except.ok ({ ptr := 42 }, { exclusiveHeld := true, sharedCount := 0 })
  ∧ operatorArrowSpecShared { ctrl := some 0, isWeak := false }
      { strong := 1, weak := 0, ptr := some 42,
        objectDestroyed := false, isArray := false }
      { exclusiveHeld := false, sharedCount := 0 }
      = Except.ok ({ ptr := 42 }, { exclusiveHeld := false, sharedCount := 1 })
  ∧ operatorArrow { ctrl := some 0, isWeak := false }
      { strong := 1, weak := 0, ptr := some 42,
        objectDestroyed := false, isArray := false }
      { exclusiveHeld := false, sharedCount := 0 }
      ≠ operatorArrowSpecShared { ctrl := some 0, isWeak := false }
      { strong := 1, weak := 0, ptr := some 42,
        objectDestroyed := false, isArray := false }
      { exclusiveHeld := false, sharedCount := 0 } := by
  refine ⟨rfl, rfl, fun he => ?_⟩
  have h2 : (Except.ok ({ ptr := 42 }, { exclusiveHeld := true, sharedCount := 0 })
      : Except String (LockedProxy × SharedMutex))
      = Except.ok ({ ptr := 42 }, { exclusiveHeld := false, sharedCount := 1 }) := he
  simp at h2

/-- Claim C6 as amended: operator-> on a single-object handle raises the
memory-safety error when the handle is weak or null; otherwise it returns a
scoped locked view that holds the mutex exclusively (a unique_lock, not a
shared lock) for the view's lifetime, releasing it when the view is
destroyed. -/
theorem c6_deref_locked_view (h : Handle) (cb : ControlBlock) (m : SharedMutex)
    (a : Nat) (hw : h.isWeak = false) (hc : h.ctrl ≠ none) (hp : cb.ptr = some a)
    (hm : m.exclusiveHeld = false) :
    operatorArrow h cb m =
      Except.ok ({ ptr := a },
        { exclusiveHeld := true, sharedCount := m.sharedCount })
  ∧ destroyLockedProxy { ptr := a }
      { exclusiveHeld := true, sharedCount := m.sharedCount } = m
  ∧ (∀ h2 cb2 m2, h2.isWeak = true →
      ∃ e, operatorArrow h2 cb2 m2 = Except.error e)
  ∧ (∀ h2 cb2 m2, h2.isWeak = false → h2.ctrl = none →
      ∃ e, operatorArrow h2 cb2 m2 = Except.error e) := by
  refine ⟨?_, ?_, ?_, ?_⟩
  · cases hctrl : h.ctrl with
    | none => exact absurd hctrl hc
    | some c => simp [operatorArrow, mkLockedProxy, hw, hctrl, hp]
  · cases m with
    | mk e sc => simp at hm; simp [destroyLockedProxy, hm]
  · intro h2 cb2 m2 hw2
    exact ⟨"operator->: cannot dereference weak pointer", by simp [operatorArrow, hw2]⟩
  · intro h2 cb2 m2 hw2 hn2
    exact ⟨"operator->: null pointer dereference", by simp [operatorArrow, hw2, hn2]⟩

/-- Witness for c6_deref_locked_view at a concrete strong handle with a live
managed pointer and a free mutex. -/
theorem c6_deref_locked_view_witness :
    operatorArrow { ctrl := some 0, isWeak := false }
      { strong := 1, weak := 0, ptr := some 42,
        objectDestroyed := false, isArray := false }
      { exclusiveHeld := false, sharedCount := 0 }
      = Except.ok ({ ptr := 42 },
          { exclusiveHeld := true,
            sharedCount := (SharedMutex.mk false 0).sharedCount })
  ∧ destroyLockedProxy { ptr := 42 }
      { exclusiveHeld := true,
        sharedCount := (SharedMutex.mk false 0).sharedCount }
      = { exclusiveHeld := false, sharedCount := 0 } :=
  ⟨(c6_deref_locked_view { ctrl := some 0, isWeak := false }
      { strong := 1, weak := 0, ptr := some 42,
        objectDestroyed := false, isArray := false }
      { exclusiveHeld := false, sharedCount := 0 } 42 rfl (by decide) rfl rfl).1,
   (c6_deref_locked_view { ctrl := some 0, isWeak := false }
      { strong := 1, weak := 0, ptr := some 42,
        objectDestroyed := false, isArray := false }
      { exclusiveHeld := false, sharedCount := 0 } 42 rfl (by decide) rfl rfl).2.1⟩

/-- Claim C9: a move construction or move assignment between two ROOT
handles transfers the root reference with no increment or decrement: the
whole collector state (in particular every root_ref_cnt) is unchanged, and
the destination ends up referring to the source's former referent. -/
theorem c9_root_move_transfer (s : GcState) (src dst0 : GcBasePtr)
    (hsrc : src.type = PtrType.ROOT) (hdst : dst0.type = PtrType.ROOT) :
    ((gcMoveCtor s false src).1.object = src.object
      ∧ (gcMoveCtor s false src).1.type = PtrType.ROOT
      ∧ (gcMoveCtor s false src).2.2 = s)
  ∧ ((gcMoveAssign s dst0 src).1.object = src.object
      ∧ (gcMoveAssign s dst0 src).2.2 = s) := by
  constructor
  · cases ho : src.object with
    | none => simp [gcMoveCtor, ho]
    | some ob => simp [gcMoveCtor, ho, hsrc]
  · by_cases he : dst0.object = src.object
    · simp [gcMoveAssign, he]
    · simp [gcMoveAssign, he, hdst, hsrc]

/-- Witness for c9_root_move_transfer at a concrete state and two concrete
ROOT handles. -/
theorem c9_root_move_transfer_witness :
    (gcMoveCtor
      { heap := [(0, { rootRefCnt := 1, refs := [] })], allObjects := [0],
        gcCounter := 10, current := none }
      false { type := PtrType.ROOT, object := some 0 }).1.object = some 0
  ∧ (gcMoveAssign
      { heap := [(0, { rootRefCnt := 1, refs := [] })], allObjects := [0],
        gcCounter := 10, current := none }
      { type := PtrType.ROOT, object := none }
      { type := PtrType.ROOT, object := some 0 }).2.2 =
    { heap := [(0, { rootRefCnt := 1, refs := [] })], allObjects := [0],
      gcCounter := 10, current := none } :=
  ⟨(c9_root_move_transfer
      { heap := [(0, { rootRefCnt := 1, refs := [] })], allObjects := [0],
        gcCounter := 10, current := none }
      { type := PtrType.ROOT, object := some 0 }
      { type := PtrType.ROOT, object := none } rfl rfl).1.1,
   (c9_root_move_transfer
      { heap := [(0, { rootRefCnt := 1, refs := [] })], allObjects := [0],
        gcCounter := 10, current := none }
      { type := PtrType.ROOT, object := some 0 }
      { type := PtrType.ROOT, object := none } rfl rfl).2.2⟩

theorem gc_collect_counter (s : GcState) :
    (gc_collect s).1.gcCounter =
      if s.allObjects = [] then s.gcCounter
      else max (2 * ((gc_collect s).1.allObjects.length : Int)) 1024 := by
  by_cases he : s.allObjects = [] <;> simp [gc_collect, he]

theorem gc_collect_allObjects_of_empty (s : GcState) (he : s.allObjects = []) :
    (gc_collect s).1 = s := by
  simp [gc_collect, he]

theorem gc_collect_counter_empty (s : GcState) (he : s.allObjects = []) :
    (gc_collect s).1.gcCounter = s.gcCounter := by
  simp [gc_collect, he]

/-- Counterexample to claim C5 as stated: with the countdown at 1, an
allocation decrements it to 0 — a non-positive value — yet neither the
single-object nor the array path invokes a collection (both test for a
strictly negative decremented value); moreover, a collection that is invoked
while the registry is empty returns before the recalibration step, so the
counter is left at the decremented value instead of max(2*0, 1024) = 1024. -/
theorem c5_counterexample :
    (({ heap := [], allObjects := [], gcCounter := 1, current := none }
          : GcState).gcCounter - 1 ≤ 0
      ∧ (newSingle { heap := [], allObjects := [], gcCounter := 1, current := none }
          0 true []).2 = false
      ∧ (newArray { heap := [], allObjects := [], gcCounter := 1, current := none }
          0 true []).2 = false)
  ∧ ((newSingle { heap := [], allObjects := [], gcCounter := 0, current := none }
        0 true []).2 = true
      ∧ (newSingle { heap := [], allObjects := [], gcCounter := 0, current := none }
          0 true []).1.gcCounter = -1
      ∧ (-1 : Int) ≠ 1024) := by
  refine ⟨⟨by decide, rfl, rfl⟩, ⟨rfl, ?_, by decide⟩⟩
  simp [newSingle, gc_collect]

/-- Claim C5 as amended: on every TC allocation the global countdown is
decremented by one; a full collection is invoked, before the allocation is
registered, exactly when the decremented counter becomes negative
(equivalently, when the value before the decrement was at most 0); when the
invoked collection finds a non-empty registry it recalibrates the counter to
max(2 * live_object_count, 1024), and with an empty registry it returns
before recalibrating, leaving the decremented value in place. -/
theorem c5_alloc_trigger (s : GcState) (objId : Nat) (isRoot : Bool)
    (refsBuilt : List (Option Nat)) :
    ((newSingle s objId isRoot refsBuilt).2 = decide (s.gcCounter - 1 < 0))
  ∧ ((newArray s objId isRoot refsBuilt).2 = decide (s.gcCounter - 1 < 0))
  ∧ ((newSingle s objId isRoot refsBuilt).1.allObjects =
      (if s.gcCounter - 1 < 0
        then (gc_collect { s with gcCounter := s.gcCounter - 1 }).1
        else { s with gcCounter := s.gcCounter - 1 }).allObjects ++ [objId])
  ∧ ((newArray s objId isRoot refsBuilt).1.allObjects =
      (if s.gcCounter - 1 < 0
        then (gc_collect { s with gcCounter := s.gcCounter - 1 }).1
        else { s with gcCounter := s.gcCounter - 1 }).allObjects ++ [objId])
  ∧ ((newSingle s objId isRoot refsBuilt).1.gcCounter =
      if s.gcCounter - 1 < 0 then
        (if s.allObjects = [] then s.gcCounter - 1
         else max (2 * (((gc_collect
           { s with gcCounter := s.gcCounter - 1 }).1.allObjects.length : Int))) 1024)
      else s.gcCounter - 1)
  ∧ ((newArray s objId isRoot refsBuilt).1.gcCounter =
      if s.gcCounter - 1 < 0 then
        (if s.allObjects = [] then s.gcCounter - 1
         else max (2 * (((gc_collect
           { s with gcCounter := s.gcCounter - 1 }).1.allObjects.length : Int))) 1024)
      else s.gcCounter - 1) := by
  have hiff : (s.gcCounter ≤ 0) = (s.gcCounter - 1 < 0) := by
    apply propext; omega
  have hcnt := gc_collect_counter { s with gcCounter := s.gcCounter - 1 }
  refine ⟨?_, ?_, ?_, ?_, ?_, ?_⟩
  · rfl
  · simp only [newArray, hiff]
  · by_cases hlt : s.gcCounter - 1 < 0 <;> simp [newSingle, heapModify, hlt]
  · by_cases hlt : s.gcCounter - 1 < 0 <;> simp [newArray, heapModify, hiff, hlt]
  · by_cases hlt : s.gcCounter - 1 < 0
    · by_cases he : s.allObjects = []
      · simp [newSingle, heapModify, hlt, he, gc_collect_counter_empty]
      · simp only [newSingle, heapModify, hlt, decide_True, if_true, if_pos, he,
          if_false, ite_false] at hcnt ⊢
        simpa [hlt, he] using hcnt
    · simp [newSingle, heapModify, hlt]
  · by_cases hlt : s.gcCounter - 1 < 0
    · by_cases he : s.allObjects = []
      · simp [newArray, heapModify, hiff, hlt, he, gc_collect_counter_empty]
      · simp only [newArray, heapModify, hiff, hlt, decide_True, if_true, if_pos, he,
          if_false, ite_false] at hcnt ⊢
        simpa [hlt, he] using hcnt
    · simp [newArray, heapModify, hiff, hlt]

/-- Claim C4 evaluated at its failing input: an array allocation of three
elements whose third element constructor throws.  The constructed prefix
(elements 0 and 1) is destroyed in forward order — not the reverse order the
claim requires — the creating handle is cleared to null, but the header is
NOT detached from the registry: it remains in all_objects with root_ref_cnt
back at 0, so the next collection will sweep it and re-run the destructor
thunk over the whole payload range. -/
theorem c4_array_ctor_failure_eval :
    ((newArrayFail { heap := [], allObjects := [], gcCounter := 100, current := none }
        7 true 2).2.2 =
      [TCEvent.constructed 0, TCEvent.constructed 1, TCEvent.threw,
       TCEvent.destroyed 0, TCEvent.destroyed 1])
  ∧ ((newArrayFail { heap := [], allObjects := [], gcCounter := 100, current := none }
        7 true 2).2.2 ≠ specReverseDestroyEvents 2)
  ∧ ((newArrayFail { heap := [], allObjects := [], gcCounter := 100, current := none }
        7 true 2).2.1 = none)
  ∧ ((newArrayFail { heap := [], allObjects := [], gcCounter := 100, current := none }
        7 true 2).1.allObjects = [7])
  ∧ (lookupObj
      (newArrayFail { heap := [], allObjects := [], gcCounter := 100, current := none }
        7 true 2).1.heap 7 = some { rootRefCnt := 0, refs := [] }) := by
  refine ⟨rfl, by decide, rfl, rfl, by decide⟩

theorem mem_foldl_pushRef (refs : List (Option Nat)) (acc : List Nat) (x : Nat) :
    x ∈ refs.foldl pushRef acc ↔ x ∈ acc ∨ some x ∈ refs := by
  induction refs generalizing acc with
  | nil => simp
  | cons r rest ih =>
    cases r with
    | none => simp [pushRef, ih]
    | some y =>
      simp only [List.foldl_cons, pushRef, ih, List.mem_cons]
      constructor
      · rintro (⟨rfl | hx⟩ | hx) <;> tauto
      · rintro (hx | ⟨hy | hy⟩) <;> simp_all

theorem mem_foldl_pushUnmarked_iff (refs : List (Option Nat)) (excl acc : List Nat)
    (x : Nat) :
    x ∈ refs.foldl (pushUnmarked excl) acc ↔
      x ∈ acc ∨ (some x ∈ refs ∧ x ∉ excl) := by
  induction refs generalizing acc with
  | nil => simp
  | cons r rest ih =>
    cases r with
    | none => simp [pushUnmarked, ih]
    | some y =>
      by_cases hy : y ∈ excl
      · simp only [List.foldl_cons, pushUnmarked, if_pos hy, ih, List.mem_cons]
        constructor
        · rintro (hx | hx) <;> tauto
        · rintro (hx | ⟨⟨rfl | hr⟩, hnx⟩)
          · tauto
          · simp_all
          · tauto
      · simp only [List.foldl_cons, pushUnmarked, if_neg hy, ih, List.mem_cons]
        constructor
        · rintro (⟨rfl | hx⟩ | hx) <;> tauto
        · rintro (hx | ⟨⟨hl | hr⟩, hnx⟩) <;> simp_all

theorem mem_seedPending (heap : Heap) (regs : List Nat) (x : Nat) :
    x ∈ seedPending heap regs ↔
      ∃ c ∈ regs, ∃ o, lookupObj heap c = some o ∧ o.rootRefCnt ≠ 0 ∧
        some x ∈ o.refs := by
  suffices h : ∀ acc : List Nat,
      (x ∈ regs.foldl (fun acc c =>
        match lookupObj heap c with
        | some o => if o.rootRefCnt ≠ 0 then o.refs.foldl pushRef acc else acc
        | none => acc) acc ↔
      x ∈ acc ∨ ∃ c ∈ regs, ∃ o, lookupObj heap c = some o ∧ o.rootRefCnt ≠ 0 ∧
        some x ∈ o.refs) by
    simpa [seedPending] using h []
  induction regs with
  | nil => simp
  | cons c rest ih =>
    intro acc
    simp only [List.foldl_cons]
    cases hl : lookupObj heap c with
    | none =>
      rw [ih]
      constructor
      · rintro (hx | ⟨c2, hc2, o2, ho2, hr2, hx2⟩)
        · exact Or.inl hx
        · exact Or.inr ⟨c2, List.mem_cons_of_mem c hc2, o2, ho2, hr2, hx2⟩
      · rintro (hx | ⟨c2, hc2, o2, ho2, hr2, hx2⟩)
        · exact Or.inl hx
        · rcases List.mem_cons.mp hc2 with rfl | hc3
          · rw [hl] at ho2; cases ho2
          · exact Or.inr ⟨c2, hc3, o2, ho2, hr2, hx2⟩
    | some o =>
      by_cases hr : o.rootRefCnt ≠ 0
      · simp only [if_pos hr, ih]
        constructor
        · rintro (hx | ⟨c2, hc2, o2, ho2, hr2, hx2⟩)
          · rcases (mem_foldl_pushRef o.refs acc x).mp hx with hx2 | hx2
            · exact Or.inl hx2
            · exact Or.inr ⟨c, List.mem_cons_self _ _, o, hl, hr, hx2⟩
          · exact Or.inr ⟨c2, List.mem_cons_of_mem c hc2, o2, ho2, hr2, hx2⟩
        · rintro (hx | ⟨c2, hc2, o2, ho2, hr2, hx2⟩)
          · exact Or.inl ((mem_foldl_pushRef o.refs acc x).mpr (Or.inl hx))
          · rcases List.mem_cons.mp hc2 with rfl | hc3
            · rw [hl] at ho2
              cases ho2
              exact Or.inl ((mem_foldl_pushRef o.refs acc x).mpr (Or.inr hx2))
            · exact Or.inr ⟨c2, hc3, o2, ho2, hr2, hx2⟩
      · simp only [if_neg hr, ih]
        constructor
        · rintro (hx | ⟨c2, hc2, o2, ho2, hr2, hx2⟩)
          · exact Or.inl hx
          · exact Or.inr ⟨c2, List.mem_cons_of_mem c hc2, o2, ho2, hr2, hx2⟩
        · rintro (hx | ⟨c2, hc2, o2, ho2, hr2, hx2⟩)
          · exact Or.inl hx
          · rcases List.mem_cons.mp hc2 with rfl | hc3
            · rw [hl] at ho2; cases ho2; exact absurd hr2 hr
            · exact Or.inr ⟨c2, hc3, o2, ho2, hr2, hx2⟩

theorem mem_rootsOf (heap : Heap) (regs : List Nat) (c : Nat) :
    c ∈ rootsOf heap regs ↔
      c ∈ regs ∧ ∃ o, lookupObj heap c = some o ∧ o.rootRefCnt ≠ 0 := by
  simp only [rootsOf, List.mem_filter]
  cases hl : lookupObj heap c <;> simp [hl]

theorem propagate_spec (heap : Heap) (regs : List Nat)
    (hdom : ∀ c ∈ regs, (lookupObj heap c).isSome)
    (hclosed : ∀ c ∈ regs, ∀ o, lookupObj heap c = some o →
      ∀ x, some x ∈ o.refs → x ∈ regs) :
    ∀ marked pending : List Nat,
    (∀ c ∈ marked, c ∈ regs) →
    (∀ c ∈ pending, c ∈ regs) →
    (∀ c ∈ marked, MarkReachable heap regs c) →
    (∀ c ∈ pending, MarkReachable heap regs c) →
    (∀ c ∈ marked, ∀ o, lookupObj heap c = some o → ∀ x, some x ∈ o.refs →
        x ∈ marked ∨ x ∈ pending) →
    (∀ c ∈ propagate heap marked pending, MarkReachable heap regs c)
    ∧ (∀ c ∈ marked, c ∈ propagate heap marked pending)
    ∧ (∀ c ∈ propagate heap marked pending, ∀ o, lookupObj heap c = some o →
        ∀ x, some x ∈ o.refs → x ∈ propagate heap marked pending)
    ∧ (∀ c ∈ propagate heap marked pending, c ∈ regs) := by
  intro marked pending
  induction marked, pending using propagate.induct heap with
  | case1 marked =>
    intro hmr _hpr hms _hps hcl
    refine ⟨?_, ?_, ?_, ?_⟩ <;> simp only [propagate]
    · exact hms
    · exact fun c hc => hc
    · intro c hc o hl x hx
      rcases hcl c hc o hl x hx with h | h
      · exact h
      · cases h
    · exact hmr
  | case2 marked c rest hm ih =>
    intro hmr hpr hms hps hcl
    have hstep : propagate heap marked (c :: rest) = propagate heap marked rest := by
      rw [propagate]
      simp [hm]
    rw [hstep]
    apply ih
    · exact hmr
    · exact fun x hx => hpr x (List.mem_cons_of_mem c hx)
    · exact hms
    · exact fun x hx => hps x (List.mem_cons_of_mem c hx)
    · intro c2 hc2 o hl x hx
      rcases hcl c2 hc2 o hl x hx with h | h
      · exact Or.inl h
      · rcases List.mem_cons.mp h with rfl | h2
        · exact Or.inl hm
        · exact Or.inr h2
  | case3 marked c rest hm hl ih =>
    intro hmr hpr hms hps hcl
    have hcr : c ∈ regs := hpr c (List.mem_cons_self _ _)
    have := hdom c hcr
    rw [hl] at this
    cases this
  | case4 marked c rest hm o hl ih =>
    intro hmr hpr hms hps hcl
    have hcr : c ∈ regs := hpr c (List.mem_cons_self _ _)
    have hcreach : MarkReachable heap regs c := hps c (List.mem_cons_self _ _)
    have hstep : propagate heap marked (c :: rest) =
        propagate heap (c :: marked) (o.refs.foldl (pushUnmarked (c :: marked)) rest) := by
      rw [propagate]
      simp only [dif_neg hm]
      split <;> simp_all
    rw [hstep]
    obtain ⟨i1, i2, i3, i4⟩ := ih
      (by
        intro x hx
        rcases List.mem_cons.mp hx with rfl | h2
        · exact hcr
        · exact hmr x h2)
      (by
        intro x hx
        rcases (mem_foldl_pushUnmarked_iff o.refs (c :: marked) rest x).mp hx with
          h2 | ⟨h2, _⟩
        · exact hpr x (List.mem_cons_of_mem c h2)
        · exact hclosed c hcr o hl x h2)
      (by
        intro x hx
        rcases List.mem_cons.mp hx with rfl | h2
        · exact hcreach
        · exact hms x h2)
      (by
        intro x hx
        rcases (mem_foldl_pushUnmarked_iff o.refs (c :: marked) rest x).mp hx with
          h2 | ⟨h2, _⟩
        · exact hps x (List.mem_cons_of_mem c h2)
        · obtain ⟨r, hr, hro, hreach⟩ := hcreach
          exact ⟨r, hr, hro, Reaches.step r c x o hreach hl h2⟩)
      (by
        intro c2 hc2 o2 hl2 x hx
        rcases List.mem_cons.mp hc2 with rfl | h2
        · rw [hl] at hl2
          cases hl2
          by_cases hxm : x ∈ c2 :: marked
          · exact Or.inl hxm
          · exact Or.inr ((mem_foldl_pushUnmarked_iff o.refs (c2 :: marked) rest x).mpr
              (Or.inr ⟨hx, hxm⟩))
        · rcases hcl c2 h2 o2 hl2 x hx with h3 | h3
          · exact Or.inl (List.mem_cons_of_mem c h3)
          · rcases List.mem_cons.mp h3 with rfl | h4
            · exact Or.inl (List.mem_cons_self _ _)
            · exact Or.inr ((mem_foldl_pushUnmarked_iff o.refs (c :: marked) rest x).mpr
                (Or.inl h4)))
    exact ⟨i1, fun c2 hc2 => i2 c2 (List.mem_cons_of_mem c hc2), i3, i4⟩

theorem reaches_mem_closed (heap : Heap) (M : List Nat)
    (hclo : ∀ c ∈ M, ∀ o, lookupObj heap c = some o → ∀ x, some x ∈ o.refs → x ∈ M)
    {a b : Nat} (hreach : Reaches heap a b) : a ∈ M → b ∈ M := by
  induction hreach with
  | refl => exact id
  | step b c o hrec hlb hbc ih => exact fun ha => hclo b (ih ha) o hlb c hbc

theorem collectMarked_iff (heap : Heap) (regs : List Nat)
    (hdom : ∀ c ∈ regs, (lookupObj heap c).isSome)
    (hclosed : ∀ c ∈ regs, ∀ o, lookupObj heap c = some o →
      ∀ x, some x ∈ o.refs → x ∈ regs) (c : Nat) :
    c ∈ collectMarked heap regs ↔ MarkReachable heap regs c := by
  have hspec := propagate_spec heap regs hdom hclosed
    (rootsOf heap regs) (seedPending heap regs)
    (fun c hc => ((mem_rootsOf heap regs c).mp hc).1)
    (fun x hx => by
      obtain ⟨c2, hc2, o2, ho2, hr2, hx2⟩ := (mem_seedPending heap regs x).mp hx
      exact hclosed c2 hc2 o2 ho2 x hx2)
    (fun c hc => by
      obtain ⟨hcr, o, ho, hr⟩ := (mem_rootsOf heap regs c).mp hc
      exact ⟨c, hcr, ⟨o, ho, hr⟩, Reaches.refl c⟩)
    (fun x hx => by
      obtain ⟨c2, hc2, o2, ho2, hr2, hx2⟩ := (mem_seedPending heap regs x).mp hx
      exact ⟨c2, hc2, ⟨o2, ho2, hr2⟩,
        Reaches.step c2 c2 x o2 (Reaches.refl c2) ho2 hx2⟩)
    (fun c hc o ho x hx => by
      obtain ⟨hcr, o2, ho2, hr2⟩ := (mem_rootsOf heap regs c).mp hc
      rw [ho] at ho2
      cases ho2
      exact Or.inr ((mem_seedPending heap regs x).mpr ⟨c, hcr, o, ho, hr2, hx⟩))
  obtain ⟨hsound, hmono, hclo, _hreg⟩ := hspec
  constructor
  · exact fun h => hsound c h
  · rintro ⟨r, hr, ⟨o, ho, hro⟩, hreach⟩
    exact reaches_mem_closed heap (collectMarked heap regs) hclo hreach
      (hmono r ((mem_rootsOf heap regs r).mpr ⟨hr, o, ho, hro⟩))

/-- Claim C1: for every well-formed registry state (registered objects are
distinct and present in the heap, embedded-handle referents are registered,
root counts are non-negative), after gc_collect the registry holds exactly
the objects reachable from the root set (root_ref_cnt > 0) along
embedded-handle edges; every unreachable object, including every node of a
cycle with no root-reachable node, is moved to the finalisation list — where
its destructor thunk is invoked — exactly once. -/
theorem c1_collect_reachability (s : GcState)
    (hnodup : s.allObjects.Nodup)
    (hdom : ∀ c ∈ s.allObjects, (lookupObj s.heap c).isSome)
    (hclosed : ∀ c ∈ s.allObjects, ∀ o, lookupObj s.heap c = some o →
      ∀ x, some x ∈ o.refs → x ∈ s.allObjects)
    (hnonneg : ∀ c ∈ s.allObjects, ∀ o, lookupObj s.heap c = some o →
      0 ≤ o.rootRefCnt) :
    (∀ c, c ∈ (gc_collect s).1.allObjects ↔ c ∈ s.allObjects ∧ RootReachable s c)
  ∧ (∀ c, c ∈ (gc_collect s).2 ↔ c ∈ s.allObjects ∧ ¬ RootReachable s c)
  ∧ (∀ c ∈ (gc_collect s).2, List.count c (gc_collect s).2 = 1) := by
  have hmr : ∀ c, MarkReachable s.heap s.allObjects c ↔ RootReachable s c := by
    intro c
    constructor
    · rintro ⟨r, hr, ⟨o, ho, hro⟩, hreach⟩
      refine ⟨r, hr, o, ho, ?_, hreach⟩
      have := hnonneg r hr o ho
      omega
    · rintro ⟨r, hr, o, ho, hro, hreach⟩
      exact ⟨r, hr, ⟨o, ho, by omega⟩, hreach⟩
  by_cases he : s.allObjects = []
  · refine ⟨?_, ?_, ?_⟩
    · intro c
      simp [gc_collect, he]
    · intro c
      simp [gc_collect, he]
    · intro c hc
      simp [gc_collect, he] at hc
  · have hM := collectMarked_iff s.heap s.allObjects hdom hclosed
    have h1 : (gc_collect s).1.allObjects =
        s.allObjects.filter (fun c => decide (c ∈ collectMarked s.heap s.allObjects)) := by
      simp [gc_collect, he]
    have h2 : (gc_collect s).2 =
        s.allObjects.filter (fun c => !decide (c ∈ collectMarked s.heap s.allObjects)) := by
      simp [gc_collect, he]
    refine ⟨?_, ?_, ?_⟩
    · intro c
      rw [h1, List.mem_filter]
      simp only [decide_eq_true_eq]
      exact and_congr_right (fun _ => (hM c).trans (hmr c))
    · intro c
      rw [h2, List.mem_filter]
      simp only [Bool.not_eq_true', decide_eq_false_iff_not]
      exact and_congr_right (fun _ => not_congr ((hM c).trans (hmr c)))
    · intro c hc
      rw [h2] at hc ⊢
      exact List.count_eq_one_of_mem (hnodup.filter _) hc

/-- Witness for c1_collect_reachability at a concrete one-object registry
holding a rooted self-referential object. -/
theorem c1_collect_reachability_witness :
    0 ∈ (gc_collect
      { heap := [(0, { rootRefCnt := 1, refs := [some 0] })], allObjects := [0],
        gcCounter := 5, current := none }).1.allObjects ↔
      (0 ∈ (GcState.mk [(0, { rootRefCnt := 1, refs := [some 0] })] [0] 5
          none).allObjects
       ∧ RootReachable
          { heap := [(0, { rootRefCnt := 1, refs := [some 0] })], allObjects := [0],
            gcCounter := 5, current := none } 0) :=
  (c1_collect_reachability
    { heap := [(0, { rootRefCnt := 1, refs := [some 0] })], allObjects := [0],
      gcCounter := 5, current := none }
    (by decide)
    (by intro c hc; fin_cases hc; decide)
    (by
      intro c hc o hl x hx
      fin_cases hc
      simp [lookupObj] at hl
      subst hl
      simp at hx
      simp [hx])
    (by
      intro c hc o hl
      fin_cases hc
      simp [lookupObj] at hl
      subst hl
      decide)).1 0

theorem countP_set_add (p : Handle → Bool) (l : List Handle) (i : Nat) (x a : Handle)
    (h : l[i]? = some a) :
    (l.set i x).countP p + (if p a then 1 else 0) =
      l.countP p + (if p x then 1 else 0) := by
  have hlen : i < l.length := by
    by_contra hh
    rw [List.getElem?_eq_none (Nat.le_of_not_lt hh)] at h
    cases h
  have hga : l[i] = a := by
    have h2 := List.getElem?_eq_getElem hlen
    rw [h] at h2
    exact (Option.some.inj h2).symm
  have hb := List.boole_getElem_le_countP p l i hlen
  rw [hga] at hb
  have hb1 : p a = true → 1 ≤ l.countP p := by
    intro hpa
    rw [hpa] at hb
    simpa using hb
  rw [List.countP_set p l i x hlen, hga]
  cases hpa : p a
  · cases hpx : p x <;> simp [hpa, hpx]
  · have h2 := hb1 hpa
    cases hpx : p x <;> simp [hpa, hpx] <;> omega

theorem countP_eraseIdx_add (p : Handle → Bool) (l : List Handle) (i : Nat)
    (a : Handle) (h : l[i]? = some a) :
    (l.eraseIdx i).countP p + (if p a then 1 else 0) = l.countP p := by
  induction l generalizing i with
  | nil => cases h
  | cons hd tl ih =>
    cases i with
    | zero =>
      simp only [List.getElem?_cons_zero] at h
      injection h with h
      subst h
      rw [List.eraseIdx_cons_zero, List.countP_cons]
    | succ n =>
      simp only [List.getElem?_cons_succ] at h
      simp only [List.eraseIdx_cons_succ, List.countP_cons]
      have := ih n h
      omega

theorem countP_concat (p : Handle → Bool) (l : List Handle) (x : Handle) :
    (l ++ [x]).countP p = l.countP p + (if p x then 1 else 0) := by
  simp [List.countP_append, List.countP_cons]

theorem isStrongOn_iff (cid : Nat) (h : Handle) :
    isStrongOn cid h = true ↔ h.ctrl = some cid ∧ h.isWeak = false := by
  simp [isStrongOn]

theorem isWeakOn_iff (cid : Nat) (h : Handle) :
    isWeakOn cid h = true ↔ h.ctrl = some cid ∧ h.isWeak = true := by
  simp [isWeakOn]

theorem consistent_of_counts {cbs : Nat → Option ControlBlock} {l l2 : List Handle}
    (h : Consistent cbs l)
    (hs : ∀ cid, l2.countP (isStrongOn cid) = l.countP (isStrongOn cid))
    (hw : ∀ cid, l2.countP (isWeakOn cid) = l.countP (isWeakOn cid)) :
    Consistent cbs l2 := by
  obtain ⟨h1, h2⟩ := h
  refine ⟨?_, ?_⟩
  · intro cid cb hcb
    rw [hs cid, hw cid]
    exact h1 cid cb hcb
  · intro hh hmem cid hctrl
    by_cases hwk : hh.isWeak
    · have hpos : 0 < l.countP (isWeakOn cid) := by
        rw [← hw cid]
        exact List.countP_pos_iff.mpr ⟨hh, hmem, (isWeakOn_iff cid hh).mpr ⟨hctrl, hwk⟩⟩
      obtain ⟨a, hal, hap⟩ := List.countP_pos_iff.mp hpos
      exact h2 a hal cid ((isWeakOn_iff cid a).mp hap).1
    · have hpos : 0 < l.countP (isStrongOn cid) := by
        rw [← hs cid]
        exact List.countP_pos_iff.mpr
          ⟨hh, hmem, (isStrongOn_iff cid hh).mpr ⟨hctrl, Bool.eq_false_iff.mpr hwk⟩⟩
      obtain ⟨a, hal, hap⟩ := List.countP_pos_iff.mp hpos
      exact h2 a hal cid ((isStrongOn_iff cid a).mp hap).1

theorem destroyObject_strong (cb : ControlBlock) :
    (destroyObject cb).1.strong = cb.strong := by
  unfold destroyObject
  split <;> rfl

theorem destroyObject_weak (cb : ControlBlock) :
    (destroyObject cb).1.weak = cb.weak := by
  unfold destroyObject
  split <;> rfl

theorem sub_one_mod_W (n : Nat) (h1 : 1 ≤ n) (hlt : n < W) :
    (n + (W - 1)) % W = n - 1 := by
  have hW : (0 : Nat) < W := by
    unfold W
    positivity
  have hEq : n + (W - 1) = W + (n - 1) := by omega
  rw [hEq, Nat.add_mod_left]
  exact Nat.mod_eq_of_lt (by omega)

theorem releaseStrong_result (cb : ControlBlock) (h1 : 1 ≤ cb.strong)
    (hlt : cb.strong < W) :
    ((releaseStrong cb).1 = none → cb.strong = 1 ∧ cb.weak = 0)
  ∧ (∀ cb2, (releaseStrong cb).1 = some cb2 →
      cb2.strong = cb.strong - 1 ∧ cb2.weak = cb.weak) := by
  have hmod := sub_one_mod_W cb.strong h1 hlt
  obtain ⟨s, w, p, d, arr⟩ := cb
  simp only at h1 hlt hmod
  by_cases hs1 : s = 1
  · subst hs1
    by_cases hw : w = 0
    · subst hw
      constructor
      · intro _
        exact ⟨rfl, rfl⟩
      · intro cb2 hcb2
        simp [releaseStrong, destroyObject_weak, hmod] at hcb2
    · constructor
      · intro hnone
        simp [releaseStrong, destroyObject_weak, hmod, hw] at hnone
      · intro cb2 hcb2
        simp [releaseStrong, destroyObject_weak, hmod, hw] at hcb2
        subst hcb2
        rw [destroyObject_strong, destroyObject_weak]
        exact ⟨hmod, rfl⟩
  · have hs2 : 2 ≤ s := by omega
    constructor
    · intro hnone
      simp [releaseStrong, hs1, show ¬ s = 0 by omega] at hnone
    · intro cb2 hcb2
      simp [releaseStrong, hs1, show ¬ s = 0 by omega] at hcb2
      subst hcb2
      exact ⟨hmod, rfl⟩

theorem releaseWeak_result (cb : ControlBlock) (h1 : 1 ≤ cb.weak)
    (hlt : cb.weak < W) :
    ((releaseWeak cb).1 = none → cb.weak = 1 ∧ cb.strong = 0)
  ∧ (∀ cb2, (releaseWeak cb).1 = some cb2 →
      cb2.weak = cb.weak - 1 ∧ cb2.strong = cb.strong) := by
  have hmod := sub_one_mod_W cb.weak h1 hlt
  obtain ⟨s, w, p, d, arr⟩ := cb
  simp only at h1 hlt hmod
  by_cases hw1 : w = 1
  · subst hw1
    by_cases hs : s = 0
    · subst hs
      constructor
      · intro _
        exact ⟨rfl, rfl⟩
      · intro cb2 hcb2
        simp [releaseWeak, hmod] at hcb2
    · constructor
      · intro hnone
        simp [releaseWeak, hmod, hs] at hnone
      · intro cb2 hcb2
        simp [releaseWeak, hmod, hs] at hcb2
        subst hcb2
        exact ⟨hmod, rfl⟩
  · have hw2 : 2 ≤ w := by omega
    constructor
    · intro hnone
      simp [releaseWeak, hw1, show ¬ w = 0 by omega] at hnone
    · intro cb2 hcb2
      simp [releaseWeak, hw1, show ¬ w = 0 by omega] at hcb2
      subst hcb2
      exact ⟨hmod, rfl⟩

theorem consistent_bump {cbs : Nat → Option ControlBlock} {l : List Handle}
    (h : Handle) (hc : Consistent cbs l)
    (hex : ∀ cid, h.ctrl = some cid → (cbs cid).isSome)
    (hlen : l.length + 1 < W) :
    Consistent (bumpUnit cbs h) (l ++ [h]) := by
  cases hctrl : h.ctrl with
  | none =>
    have hb : bumpUnit cbs h = cbs := by
      unfold bumpUnit
      rw [hctrl]
    rw [hb]
    apply consistent_of_counts hc <;> intro cid <;> rw [countP_concat] <;>
      simp [isStrongOn, isWeakOn, hctrl]
  | some cid =>
    obtain ⟨cb, hcb⟩ := Option.isSome_iff_exists.mp (hex cid hctrl)
    have hcnt := hc.1 cid cb hcb
    have hbu : bumpUnit cbs h =
        updateCb cbs cid (some (if h.isWeak then addWeak cb else addStrong cb)) := by
      simp only [bumpUnit, hctrl, hcb]
    rw [hbu]
    constructor
    · intro cid2 cb2 hcb2
      unfold updateCb at hcb2
      by_cases he : cid2 = cid
      · subst he
        rw [if_pos rfl] at hcb2
        injection hcb2 with hcb2
        subst hcb2
        cases hwk : h.isWeak
        · have hps : isStrongOn cid2 h = true := (isStrongOn_iff cid2 h).mpr ⟨hctrl, hwk⟩
          have hpw : isWeakOn cid2 h = false := by
            simp [isWeakOn, hctrl, hwk]
          refine ⟨?_, ?_⟩
          · rw [countP_concat]
            simp only [hwk, if_false, Bool.false_eq_true, hps, if_true]
            show (cb.strong + 1) % W = l.countP (isStrongOn cid2) + 1
            rw [hcnt.1]
            exact Nat.mod_eq_of_lt (by
              have := List.countP_le_length (p := isStrongOn cid2) (l := l)
              omega)
          · rw [countP_concat]
            simp only [hwk, if_false, Bool.false_eq_true, hpw]
            show cb.weak = l.countP (isWeakOn cid2) + 0
            rw [hcnt.2]
            omega
        · have hps : isStrongOn cid2 h = false := by
            simp [isStrongOn, hctrl, hwk]
          have hpw : isWeakOn cid2 h = true := (isWeakOn_iff cid2 h).mpr ⟨hctrl, hwk⟩
          refine ⟨?_, ?_⟩
          · rw [countP_concat]
            simp only [hwk, if_true, hps]
            show cb.strong = l.countP (isStrongOn cid2) + 0
            rw [hcnt.1]
            omega
          · rw [countP_concat]
            simp only [hwk, if_true, hpw]
            show (cb.weak + 1) % W = l.countP (isWeakOn cid2) + 1
            rw [hcnt.2]
            exact Nat.mod_eq_of_lt (by
              have := List.countP_le_length (p := isWeakOn cid2) (l := l)
              omega)
      · rw [if_neg he] at hcb2
        have hold := hc.1 cid2 cb2 hcb2
        have hps : isStrongOn cid2 h = false := by
          simp [isStrongOn, hctrl]
          intro heq
          exact absurd heq.symm he
        have hpw : isWeakOn cid2 h = false := by
          simp [isWeakOn, hctrl]
          intro heq
          exact absurd heq.symm he
        rw [countP_concat, countP_concat, hps, hpw]
        simpa using hold
    · intro h2 hm2 cid2 hctrl2
      unfold updateCb
      by_cases he : cid2 = cid
      · simp [he]
      · rw [if_neg he]
        rcases List.mem_append.mp hm2 with hm3 | hm3
        · exact hc.2 h2 hm3 cid2 hctrl2
        · have : h2 = h := by simpa using hm3
          subst this
          rw [hctrl] at hctrl2
          injection hctrl2 with hctrl2
          exact absurd hctrl2.symm he

theorem consistent_release {cbs : Nat → Option ControlBlock} {l : List Handle}
    (h : Handle) (hc : Consistent cbs (l ++ [h]))
    (hlen : l.length + 1 < W) :
    Consistent (releaseUnit cbs h) l := by
  cases hctrl : h.ctrl with
  | none =>
    have hb : releaseUnit cbs h = cbs := by
      unfold releaseUnit
      rw [hctrl]
    rw [hb]
    apply consistent_of_counts hc <;> intro cid <;> rw [countP_concat] <;>
      simp [isStrongOn, isWeakOn, hctrl]
  | some cid =>
    have hex : (cbs cid).isSome :=
      hc.2 h (List.mem_append.mpr (Or.inr (List.mem_cons_self _ _))) cid hctrl
    obtain ⟨cb, hcb⟩ := Option.isSome_iff_exists.mp hex
    have hcnt := hc.1 cid cb hcb
    have hstrongEq : (l ++ [h]).countP (isStrongOn cid) =
        l.countP (isStrongOn cid) + (if h.isWeak then 0 else 1) := by
      rw [countP_concat]
      cases hwk : h.isWeak
      · simp [(isStrongOn_iff cid h).mpr ⟨hctrl, hwk⟩]
      · simp [show isStrongOn cid h = false by simp [isStrongOn, hctrl, hwk]]
    have hweakEq : (l ++ [h]).countP (isWeakOn cid) =
        l.countP (isWeakOn cid) + (if h.isWeak then 1 else 0) := by
      rw [countP_concat]
      cases hwk : h.isWeak
      · simp [show isWeakOn cid h = false by simp [isWeakOn, hctrl, hwk]]
      · simp [(isWeakOn_iff cid h).mpr ⟨hctrl, hwk⟩]
    have hcountsNe : ∀ cid2, cid2 ≠ cid →
        (l ++ [h]).countP (isStrongOn cid2) = l.countP (isStrongOn cid2)
        ∧ (l ++ [h]).countP (isWeakOn cid2) = l.countP (isWeakOn cid2) := by
      intro cid2 he
      have hps : isStrongOn cid2 h = false := by
        simp [isStrongOn, hctrl]
        intro heq
        exact absurd heq.symm he
      have hpw : isWeakOn cid2 h = false := by
        simp [isWeakOn, hctrl]
        intro heq
        exact absurd heq.symm he
      rw [countP_concat, countP_concat, hps, hpw]
      simp
    have hbu : releaseUnit cbs h = updateCb cbs cid
        (if h.isWeak then (releaseWeak cb).1 else (releaseStrong cb).1) := by
      simp only [releaseUnit, hctrl, hcb]
    rw [hbu]
    cases hwk : h.isWeak
    · -- strong release
      have hprior : cb.strong = l.countP (isStrongOn cid) + 1 := by
        rw [hcnt.1, hstrongEq, hwk]
        simp
      have h1 : 1 ≤ cb.strong := by omega
      have hltW : cb.strong < W := by
        have := List.countP_le_length (p := isStrongOn cid) (l := l)
        omega
      obtain ⟨hnone, hsome⟩ := releaseStrong_result cb h1 hltW
      simp only [Bool.false_eq_true, if_false]
      cases hrel : (releaseStrong cb).1 with
      | none =>
        obtain ⟨hS1, hW0⟩ := hnone hrel
        have hS0 : l.countP (isStrongOn cid) = 0 := by omega
        have hW0l : l.countP (isWeakOn cid) = 0 := by
          have := hcnt.2
          rw [hweakEq, hwk] at this
          omega
        constructor
        · intro cid2 cb2 hcb2
          unfold updateCb at hcb2
          by_cases he : cid2 = cid
          · subst he
            rw [if_pos rfl] at hcb2
            cases hcb2
          · rw [if_neg he] at hcb2
            have hold := hc.1 cid2 cb2 hcb2
            rw [(hcountsNe cid2 he).1, (hcountsNe cid2 he).2] at hold
            exact hold
        · intro h2 hm2 cid2 hctrl2
          unfold updateCb
          by_cases he : cid2 = cid
          · subst he
            by_cases hwk2 : h2.isWeak
            · have : 0 < l.countP (isWeakOn cid2) :=
                List.countP_pos_iff.mpr ⟨h2, hm2, (isWeakOn_iff cid2 h2).mpr ⟨hctrl2, hwk2⟩⟩
              omega
            · have : 0 < l.countP (isStrongOn cid2) :=
                List.countP_pos_iff.mpr ⟨h2, hm2,
                  (isStrongOn_iff cid2 h2).mpr ⟨hctrl2, Bool.eq_false_iff.mpr hwk2⟩⟩
              omega
          · rw [if_neg he]
            exact hc.2 h2 (List.mem_append.mpr (Or.inl hm2)) cid2 hctrl2
      | some cb2 =>
        obtain ⟨hS, hWk⟩ := hsome cb2 hrel
        constructor
        · intro cid3 cb3 hcb3
          unfold updateCb at hcb3
          by_cases he : cid3 = cid
          · subst he
            rw [if_pos rfl] at hcb3
            injection hcb3 with hcb3
            subst hcb3
            constructor
            · rw [hS]
              omega
            · rw [hWk, hcnt.2, hweakEq, hwk]
              simp
          · rw [if_neg he] at hcb3
            have hold := hc.1 cid3 cb3 hcb3
            rw [(hcountsNe cid3 he).1, (hcountsNe cid3 he).2] at hold
            exact hold
        · intro h2 hm2 cid3 hctrl3
          unfold updateCb
          by_cases he : cid3 = cid
          · simp [he]
          · rw [if_neg he]
            exact hc.2 h2 (List.mem_append.mpr (Or.inl hm2)) cid3 hctrl3
    · -- weak release
      have hprior : cb.weak = l.countP (isWeakOn cid) + 1 := by
        rw [hcnt.2, hweakEq, hwk]
        simp
      have h1 : 1 ≤ cb.weak := by omega
      have hltW : cb.weak < W := by
        have := List.countP_le_length (p := isWeakOn cid) (l := l)
        omega
      obtain ⟨hnone, hsome⟩ := releaseWeak_result cb h1 hltW
      simp only [eq_self_iff_true, if_true]
      cases hrel : (releaseWeak cb).1 with
      | none =>
        obtain ⟨hW1, hS0⟩ := hnone hrel
        have hW0 : l.countP (isWeakOn cid) = 0 := by omega
        have hS0l : l.countP (isStrongOn cid) = 0 := by
          have := hcnt.1
          rw [hstrongEq, hwk] at this
          omega
        constructor
        · intro cid2 cb2 hcb2
          unfold updateCb at hcb2
          by_cases he : cid2 = cid
          · subst he
            rw [if_pos rfl] at hcb2
            cases hcb2
          · rw [if_neg he] at hcb2
            have hold := hc.1 cid2 cb2 hcb2
            rw [(hcountsNe cid2 he).1, (hcountsNe cid2 he).2] at hold
            exact hold
        · intro h2 hm2 cid2 hctrl2
          unfold updateCb
          by_cases he : cid2 = cid
          · subst he
            by_cases hwk2 : h2.isWeak
            · have : 0 < l.countP (isWeakOn cid2) :=
                List.countP_pos_iff.mpr ⟨h2, hm2, (isWeakOn_iff cid2 h2).mpr ⟨hctrl2, hwk2⟩⟩
              omega
            · have : 0 < l.countP (isStrongOn cid2) :=
                List.countP_pos_iff.mpr ⟨h2, hm2,
                  (isStrongOn_iff cid2 h2).mpr ⟨hctrl2, Bool.eq_false_iff.mpr hwk2⟩⟩
              omega
          · rw [if_neg he]
            exact hc.2 h2 (List.mem_append.mpr (Or.inl hm2)) cid2 hctrl2
      | some cb2 =>
        obtain ⟨hWk, hS⟩ := hsome cb2 hrel
        constructor
        · intro cid3 cb3 hcb3
          unfold updateCb at hcb3
          by_cases he : cid3 = cid
          · subst he
            rw [if_pos rfl] at hcb3
            injection hcb3 with hcb3
            subst hcb3
            constructor
            · rw [hS, hcnt.1, hstrongEq, hwk]
              simp
            · rw [hWk]
              omega
          · rw [if_neg he] at hcb3
            have hold := hc.1 cid3 cb3 hcb3
            rw [(hcountsNe cid3 he).1, (hcountsNe cid3 he).2] at hold
            exact hold
        · intro h2 hm2 cid3 hctrl3
          unfold updateCb
          by_cases he : cid3 = cid
          · simp [he]
          · rw [if_neg he]
            exact hc.2 h2 (List.mem_append.mpr (Or.inl hm2)) cid3 hctrl3

theorem isStrongOn_null (cid : Nat) : isStrongOn cid nullHandle = false := rfl

theorem isWeakOn_null (cid : Nat) : isWeakOn cid nullHandle = false := rfl

theorem countP_set_x_concat (p : Handle → Bool) (l : List Handle) (i : Nat)
    (x h : Handle) (hi : l[i]? = some h) :
    ((l.set i x) ++ [h]).countP p = l.countP p + (if p x then 1 else 0) := by
  have h2 := countP_set_add p l i x h hi
  rw [countP_concat]
  cases hph : p h <;> cases hpx : p x <;> simp [hph, hpx] at h2 ⊢ <;> omega

theorem countP_double_set (p : Handle → Bool) (hp0 : p nullHandle = false)
    (l : List Handle) (dst src : Nat) (hd hs : Handle) (hne : dst ≠ src)
    (hdst : l[dst]? = some hd) (hsrc : l[src]? = some hs) :
    (((l.set dst hs).set src nullHandle) ++ [hd]).countP p = l.countP p := by
  have hsrcL1 : (l.set dst hs)[src]? = some hs := by
    rw [List.getElem?_set_ne hne]
    exact hsrc
  have e1 := countP_set_add p (l.set dst hs) src nullHandle hs hsrcL1
  have e2 := countP_set_add p l dst hs hd hdst
  rw [countP_concat]
  cases hph : p hd <;> cases hps : p hs <;>
    simp [hph, hps, hp0] at e1 e2 ⊢ <;> omega

theorem countP_set_vs_setnull (p : Handle → Bool) (hp0 : p nullHandle = false)
    (l : List Handle) (i : Nat) (hd x : Handle) (hi : l[i]? = some hd) :
    (l.set i x).countP p = ((l.set i nullHandle) ++ [x]).countP p := by
  have e1 := countP_set_add p l i x hd hi
  have e2 := countP_set_add p l i nullHandle hd hi
  rw [countP_concat]
  cases hph : p hd <;> cases hpx : p x <;> simp [hph, hpx, hp0] at e1 e2 ⊢ <;> omega

theorem countP_swap_set (p : Handle → Bool) (l : List Handle) (i j : Nat)
    (hi hj : Handle) (hne : i ≠ j) (h1 : l[i]? = some hi) (h2 : l[j]? = some hj) :
    ((l.set i hj).set j hi).countP p = l.countP p := by
  have e1 := countP_set_add p l i hj hi h1
  have hj2 : (l.set i hj)[j]? = some hj := by
    rw [List.getElem?_set_ne hne]
    exact h2
  have e2 := countP_set_add p (l.set i hj) j hi hj hj2
  cases hph : p hi <;> cases hpj : p hj <;> simp [hph, hpj] at e1 e2 ⊢ <;> omega

theorem updateCb_self (cbs : Nat → Option ControlBlock) (cid : Nat)
    (cb : ControlBlock) (hcb : cbs cid = some cb) :
    updateCb cbs cid (some cb) = cbs := by
  funext c
  unfold updateCb
  by_cases he : c = cid
  · subst he
    rw [if_pos rfl, hcb]
  · rw [if_neg he]

theorem consistent_append_null {cbs : Nat → Option ControlBlock} {l : List Handle}
    (hc : Consistent cbs l) (h : Handle) (hctrl : h.ctrl = none) :
    Consistent cbs (l ++ [h]) := by
  apply consistent_of_counts hc <;> intro cid <;> rw [countP_concat] <;>
    simp [isStrongOn, isWeakOn, hctrl]

/-- C7: every live handle has contributed exactly one unit to the matching
counter of its control block (formalised as the counting invariant Inv:
each block's strong and weak counters equal the number of live strong and
weak handles on it, and every live handle's block exists), and every public
VSharedPtr operation — construction from a raw pointer, default construction,
copy and move construction, copy and move assignment, reset, make_weak,
lock, weak assignment, swap and destruction — preserves it.  The side
condition bounds the handle count below the 64-bit counter modulus so the
embedded fetch-add/fetch-sub arithmetic does not wrap. -/
theorem c7_handle_unit_invariant (s : RCSys) (op : Op) (hinv : RC.Inv s)
    (hlen : s.handles.length + 1 < W) : RC.Inv (step s op) := by
  unfold RC.Inv at hinv ⊢
  cases op with
  | newFromRaw cid ptrAddr isArray =>
    cases ptrAddr with
    | none =>
      simp only [step]
      exact consistent_append_null hinv nullHandle rfl
    | some a =>
      cases hcbs : s.cbs cid with
      | some cb =>
        simp only [step, hcbs]
        exact hinv
      | none =>
        simp only [step, hcbs]
        have hz0 : ∀ h2 ∈ s.handles, h2.ctrl ≠ some cid := by
          intro h2 hm hc
          have := hinv.2 h2 hm cid hc
          rw [hcbs] at this
          simp at this
        have hzS : s.handles.countP (isStrongOn cid) = 0 :=
          List.countP_eq_zero.mpr (fun h2 hm hp =>
            hz0 h2 hm ((isStrongOn_iff cid h2).mp hp).1)
        have hzW : s.handles.countP (isWeakOn cid) = 0 :=
          List.countP_eq_zero.mpr (fun h2 hm hp =>
            hz0 h2 hm ((isWeakOn_iff cid h2).mp hp).1)
        constructor
        · intro cid2 cb2 hcb2
          unfold updateCb at hcb2
          by_cases he : cid2 = cid
          · subst he
            rw [if_pos rfl] at hcb2
            injection hcb2 with hcb2
            subst hcb2
            rw [countP_concat, countP_concat, hzS, hzW]
            refine ⟨?_, ?_⟩ <;> simp [isStrongOn, isWeakOn]
          · rw [if_neg he] at hcb2
            have hold := hinv.1 cid2 cb2 hcb2
            have hne2 : cid ≠ cid2 := fun hh => he hh.symm
            have e1 : isStrongOn cid2 { ctrl := some cid, isWeak := false } = false := by
              simp [isStrongOn, hne2]
            have e2 : isWeakOn cid2 { ctrl := some cid, isWeak := false } = false := by
              simp [isWeakOn]
            rw [countP_concat, countP_concat, e1, e2]
            simpa using hold
        · intro h2 hm2 cid2 hc2
          rw [List.mem_append] at hm2
          unfold updateCb
          by_cases he : cid2 = cid
          · subst he
            rw [if_pos rfl]
            rfl
          · rw [if_neg he]
            cases hm2 with
            | inl hl2 => exact hinv.2 h2 hl2 cid2 hc2
            | inr hr2 =>
              simp at hr2
              subst hr2
              simp at hc2
              exact absurd hc2.symm he
  | defaultCtor =>
    simp only [step]
    exact consistent_append_null hinv nullHandle rfl
  | copyCtor src =>
    cases hsrc : s.handles[src]? with
    | none =>
      simp only [step, hsrc]
      exact hinv
    | some h =>
      simp only [step, hsrc]
      exact consistent_bump h hinv
        (fun cid hc => hinv.2 h (List.getElem?_mem hsrc) cid hc) hlen
  | moveCtor src =>
    cases hsrc : s.handles[src]? with
    | none =>
      simp only [step, hsrc]
      exact hinv
    | some h =>
      simp only [step, hsrc]
      apply consistent_of_counts hinv <;> intro cid <;>
        rw [countP_set_x_concat _ _ _ _ _ hsrc] <;>
        simp [isStrongOn_null, isWeakOn_null]
  | copyAssign dst src =>
    by_cases hds : dst = src
    · simp only [step, if_pos hds]
      exact hinv
    · cases hdst : s.handles[dst]? with
      | none =>
        cases hsrc : s.handles[src]? <;>
          simp only [step, if_neg hds, hdst, hsrc] <;> exact hinv
      | some hd =>
        cases hsrc : s.handles[src]? with
        | none =>
          simp only [step, if_neg hds, hdst, hsrc]
          exact hinv
        | some hs =>
          simp only [step, if_neg hds, hdst, hsrc]
          have h1 : Consistent (bumpUnit s.cbs hs) (s.handles ++ [hs]) :=
            consistent_bump hs hinv
              (fun cid hc => hinv.2 hs (List.getElem?_mem hsrc) cid hc) hlen
          have h2 : Consistent (bumpUnit s.cbs hs) ((s.handles.set dst hs) ++ [hd]) := by
            apply consistent_of_counts h1 <;> intro cid <;>
              rw [countP_set_x_concat _ _ _ _ _ hdst, countP_concat]
          apply consistent_release hd h2
          rw [List.length_set]
          exact hlen
  | moveAssign dst src =>
    by_cases hds : dst = src
    · simp only [step, if_pos hds]
      exact hinv
    · cases hdst : s.handles[dst]? with
      | none =>
        cases hsrc : s.handles[src]? <;>
          simp only [step, if_neg hds, hdst, hsrc] <;> exact hinv
      | some hd =>
        cases hsrc : s.handles[src]? with
        | none =>
          simp only [step, if_neg hds, hdst, hsrc]
          exact hinv
        | some hs =>
          simp only [step, if_neg hds, hdst, hsrc]
          have h1 : Consistent s.cbs
              (((s.handles.set dst hs).set src nullHandle) ++ [hd]) := by
            apply consistent_of_counts hinv <;> intro cid
            · exact countP_double_set _ (isStrongOn_null cid) s.handles dst src
                hd hs hds hdst hsrc
            · exact countP_double_set _ (isWeakOn_null cid) s.handles dst src
                hd hs hds hdst hsrc
          apply consistent_release hd h1
          rw [List.length_set, List.length_set]
          exact hlen
  | reset i =>
    cases hi : s.handles[i]? with
    | none =>
      simp only [step, hi]
      exact hinv
    | some h =>
      simp only [step, hi]
      have h1 : Consistent s.cbs ((s.handles.set i nullHandle) ++ [h]) := by
        apply consistent_of_counts hinv <;> intro cid <;>
          rw [countP_set_x_concat _ _ _ _ _ hi] <;>
          simp [isStrongOn_null, isWeakOn_null]
      apply consistent_release h h1
      rw [List.length_set]
      exact hlen
  | makeWeakOp src =>
    cases hsrc : s.handles[src]? with
    | none =>
      simp only [step, hsrc]
      exact hinv
    | some h =>
      cases hctrl : h.ctrl with
      | none =>
        simp only [step, hsrc, hctrl]
        exact consistent_append_null hinv nullHandle rfl
      | some cid =>
        cases hcbs : s.cbs cid with
        | none =>
          simp only [step, hsrc, hctrl, hcbs]
          exact hinv
        | some cb =>
          cases hwk : h.isWeak with
          | true =>
            have hmw1 : (makeWeak h cb).1 = nullHandle := by
              simp [makeWeak, hctrl, hwk]
            have hmw2 : (makeWeak h cb).2 = cb := by
              simp [makeWeak, hctrl, hwk]
            simp only [step, hsrc, hctrl, hcbs, hmw1, hmw2]
            rw [updateCb_self s.cbs cid cb hcbs]
            exact consistent_append_null hinv nullHandle rfl
          | false =>
            have hmw1 : (makeWeak h cb).1 = { ctrl := some cid, isWeak := true } := by
              simp [makeWeak, hctrl, hwk]
            have hmw2 : (makeWeak h cb).2 = addWeak cb := by
              simp [makeWeak, hctrl, hwk]
            simp only [step, hsrc, hctrl, hcbs, hmw1, hmw2]
            have hbu : bumpUnit s.cbs { ctrl := some cid, isWeak := true } =
                updateCb s.cbs cid (some (addWeak cb)) := by
              simp [bumpUnit, hcbs]
            rw [← hbu]
            apply consistent_bump _ hinv ?_ hlen
            intro cid2 hc2
            simp at hc2
            subst hc2
            rw [hcbs]
            rfl
  | lockOp src =>
    cases hsrc : s.handles[src]? with
    | none =>
      simp only [step, hsrc]
      exact hinv
    | some h =>
      cases hctrl : h.ctrl with
      | none =>
        cases hwk : h.isWeak with
        | false =>
          have hl1 : (lock h dummyCb).1 = h := by
            simp [lock, copyCtor, hwk]
          simp only [step, hsrc, hctrl, hl1]
          exact consistent_append_null hinv h hctrl
        | true =>
          have hl1 : (lock h dummyCb).1 = nullHandle := by
            simp [lock, hwk, hctrl]
          simp only [step, hsrc, hctrl, hl1]
          exact consistent_append_null hinv nullHandle rfl
      | some cid =>
        cases hcbs : s.cbs cid with
        | none =>
          simp only [step, hsrc, hctrl, hcbs]
          exact hinv
        | some cb =>
          cases hwk : h.isWeak with
          | false =>
            have hl1 : (lock h cb).1 = h := by
              simp [lock, copyCtor, hwk]
            have hl2 : (lock h cb).2 = addStrong cb := by
              simp [lock, copyCtor, hwk, hctrl]
            simp only [step, hsrc, hctrl, hcbs, hl1, hl2]
            have hbu : bumpUnit s.cbs h = updateCb s.cbs cid (some (addStrong cb)) := by
              simp [bumpUnit, hctrl, hcbs, hwk]
            rw [← hbu]
            apply consistent_bump h hinv ?_ hlen
            intro cid2 hc2
            rw [hctrl] at hc2
            injection hc2 with hc2
            subst hc2
            rw [hcbs]
            rfl
          | true =>
            by_cases hpos : cb.strong > 0
            · have hl1 : (lock h cb).1 = { ctrl := some cid, isWeak := false } := by
                simp [lock, hwk, hctrl, tryAddStrong, hpos]
              have hl2 : (lock h cb).2 = { cb with strong := (cb.strong + 1) % W } := by
                simp [lock, hwk, hctrl, tryAddStrong, hpos]
              simp only [step, hsrc, hctrl, hcbs, hl1, hl2]
              have hbu : bumpUnit s.cbs { ctrl := some cid, isWeak := false } =
                  updateCb s.cbs cid (some { cb with strong := (cb.strong + 1) % W }) := by
                simp [bumpUnit, hcbs, addStrong]
              rw [← hbu]
              apply consistent_bump _ hinv ?_ hlen
              intro cid2 hc2
              simp at hc2
              subst hc2
              rw [hcbs]
              rfl
            · have hl1 : (lock h cb).1 = nullHandle := by
                simp [lock, hwk, hctrl, tryAddStrong, hpos]
              have hl2 : (lock h cb).2 = cb := by
                simp [lock, hwk, hctrl, tryAddStrong, hpos]
              simp only [step, hsrc, hctrl, hcbs, hl1, hl2]
              rw [updateCb_self s.cbs cid cb hcbs]
              exact consistent_append_null hinv nullHandle rfl
  | weakAssign dst src =>
    by_cases hds : dst = src
    · simp only [step, if_pos hds]
      exact hinv
    · cases hdst : s.handles[dst]? with
      | none =>
        cases hsrc : s.handles[src]? <;>
          simp only [step, if_neg hds, hdst, hsrc] <;> exact hinv
      | some hd =>
        cases hsrc : s.handles[src]? with
        | none =>
          simp only [step, if_neg hds, hdst, hsrc]
          exact hinv
        | some hs =>
          have hA : Consistent s.cbs ((s.handles.set dst nullHandle) ++ [hd]) := by
            apply consistent_of_counts hinv <;> intro cid <;>
              rw [countP_set_x_concat _ _ _ _ _ hdst] <;>
              simp [isStrongOn_null, isWeakOn_null]
          have hB : Consistent (releaseUnit s.cbs hd) (s.handles.set dst nullHandle) := by
            apply consistent_release hd hA
            rw [List.length_set]
            exact hlen
          cases hctrl : hs.ctrl with
          | none =>
            simp only [step, if_neg hds, hdst, hsrc, hctrl]
            exact hB
          | some cid =>
            cases hwk : hs.isWeak with
            | true =>
              simp only [step, if_neg hds, hdst, hsrc, hctrl, hwk]
              exact hB
            | false =>
              cases hcbs1 : releaseUnit s.cbs hd cid with
              | none =>
                simp only [step, if_neg hds, hdst, hsrc, hctrl, hwk,
                  Bool.false_eq_true, if_false, hcbs1]
                exact hB
              | some cb =>
                simp only [step, if_neg hds, hdst, hsrc, hctrl, hwk,
                  Bool.false_eq_true, if_false, hcbs1]
                have hC : Consistent (bumpUnit (releaseUnit s.cbs hd)
                    { ctrl := some cid, isWeak := true })
                    ((s.handles.set dst nullHandle) ++
                      [{ ctrl := some cid, isWeak := true }]) := by
                  apply consistent_bump _ hB ?_ ?_
                  · intro cid2 hc2
                    simp at hc2
                    subst hc2
                    rw [hcbs1]
                    rfl
                  · rw [List.length_set]
                    exact hlen
                have hbu : bumpUnit (releaseUnit s.cbs hd)
                    { ctrl := some cid, isWeak := true } =
                    updateCb (releaseUnit s.cbs hd) cid (some (addWeak cb)) := by
                  simp [bumpUnit, hcbs1]
                rw [← hbu]
                apply consistent_of_counts hC <;> intro cid2
                · exact countP_set_vs_setnull _ (isStrongOn_null cid2) s.handles dst
                    hd _ hdst
                · exact countP_set_vs_setnull _ (isWeakOn_null cid2) s.handles dst
                    hd _ hdst
  | swapOp i j =>
    by_cases hij : i = j
    · simp only [step, if_pos hij]
      exact hinv
    · cases hi : s.handles[i]? with
      | none =>
        cases hj : s.handles[j]? <;>
          simp only [step, if_neg hij, hi, hj] <;> exact hinv
      | some hhi =>
        cases hj : s.handles[j]? with
        | none =>
          simp only [step, if_neg hij, hi, hj]
          exact hinv
        | some hhj =>
          simp only [step, if_neg hij, hi, hj]
          apply consistent_of_counts hinv <;> intro cid
          · exact countP_swap_set _ s.handles i j hhi hhj hij hi hj
          · exact countP_swap_set _ s.handles i j hhi hhj hij hi hj
  | dtor i =>
    cases hi : s.handles[i]? with
    | none =>
      simp only [step, hi]
      exact hinv
    | some h =>
      simp only [step, hi]
      have h1 : Consistent s.cbs ((s.handles.eraseIdx i) ++ [h]) := by
        apply consistent_of_counts hinv <;> intro cid <;>
          rw [countP_concat, countP_eraseIdx_add _ _ _ _ hi]
      apply consistent_release h h1
      have := List.length_eraseIdx_le s.handles i
      omega

/-- Witness for C7: the counting invariant holds in the empty handle system,
the length bound holds there, and it is preserved by a concrete construction
from a raw pointer. -/
theorem c7_handle_unit_invariant_witness :
    RC.Inv (RCSys.mk (fun _ => none) []) ∧
    (RCSys.mk (fun _ => none) ([] : List Handle)).handles.length + 1 < W ∧
    RC.Inv (step (RCSys.mk (fun _ => none) []) (Op.newFromRaw 0 (some 5) false)) := by
  have hinv : RC.Inv (RCSys.mk (fun _ => none) []) := by
    unfold RC.Inv Consistent
    refine ⟨?_, ?_⟩
    · intro cid cb hcb
      exact absurd hcb (by simp)
    · intro h hm
      cases hm
  have hlen : (RCSys.mk (fun _ => none) ([] : List Handle)).handles.length + 1 < W := by
    norm_num [W]
  exact ⟨hinv, hlen, c7_handle_unit_invariant _ _ hinv hlen⟩

end Theorems

end GarbageCollector
